import Mathlib

/-!
The dnsmasq supervisor: argument synthesis and lease parsing.

A shallow embedding of `src/dnsmasq/dnsmasq.go`.

Go strings are modelled as lists of characters.  Every separator, pattern and
digit test used by the package is ASCII, so on UTF-8 text splitting and
matching by character agrees with Go's byte-wise splitting and matching.

A Go run-time panic (index or slice bound out of range, nil dereference) is
modelled by `none` in an `Option` result.
-/

namespace Dnsmasq

/-- A Go `string`. -/
abbrev Str := List Char

/-! ## The parts of the Go standard library the package calls -/

/-- Go `strings.HasPrefix(s, pre)`:
`len(s) >= len(pre) && s[:len(pre)] == pre`. -/
def HasPrefix (s pre : Str) : Bool :=
  decide (pre.length ≤ s.length) && decide (s.take pre.length = pre)

/-- The loop of `strings.Split` for a non-empty separator: the pieces of the
string between the non-overlapping occurrences of `sep`, found left to right.
The first argument counts the characters of a separator just matched that are
still to be stepped over. -/
def splitFrom (sep : Str) : Nat → Str → List Str
  | _, [] => [[]]
  | skip + 1, _ :: cs => splitFrom sep skip cs
  | 0, c :: cs =>
    if HasPrefix (c :: cs) sep then [] :: splitFrom sep (sep.length - 1) cs
    else
      match splitFrom sep 0 cs with
      | [] => [[c]]
      | piece :: pieces => (c :: piece) :: pieces

/-- Go `strings.Split(s, sep)`: with an empty separator the string is exploded
into its characters, otherwise it is cut at every occurrence of `sep`. -/
def Split (s sep : Str) : List Str :=
  if sep = [] then s.map (fun c => [c]) else splitFrom sep 0 s

/-- Go `strings.Join(elems, sep)`. -/
def Join (elems : List Str) (sep : Str) : Str :=
  match elems with
  | [] => []
  | [e] => e
  | e :: rest => e ++ sep ++ Join rest sep

/-- The loop of `strings.Replace` for a non-empty pattern.  The first argument
counts the characters of a matched pattern still to be stepped over, the second
is the number of replacements still allowed (`none`: no limit). -/
def replaceFrom (old new : Str) : Nat → Option Nat → Str → Str
  | _, _, [] => []
  | skip + 1, lim, _ :: cs => replaceFrom old new skip lim cs
  | 0, lim, c :: cs =>
    if lim ≠ some 0 ∧ HasPrefix (c :: cs) old = true then
      new ++ replaceFrom old new (old.length - 1) (lim.map (fun k => k - 1)) cs
    else c :: replaceFrom old new 0 lim cs

/-- The empty-pattern case of `strings.Replace`: `new` is inserted before each
character and at the end of the string, as long as the limit allows. -/
def insertEach (new : Str) : Option Nat → Str → Str
  | some 0, s => s
  | _, [] => new
  | lim, c :: cs => new ++ c :: insertEach new (lim.map (fun k => k - 1)) cs

/-- Go `strings.Replace(s, old, new, n)`: the first `n` non-overlapping
occurrences of `old` are replaced by `new`; a negative `n` replaces all. -/
def Replace (s old new : Str) (n : Int) : Str :=
  let lim : Option Nat := if n < 0 then none else some n.toNat
  if old = new ∨ n = 0 then s
  else if old = [] then insertEach new lim s
  else replaceFrom old new 0 lim s

/-- The error kinds of `strconv`. -/
inductive NumError where
  | ErrSyntax
  | ErrRange
  deriving DecidableEq, Repr

/-- Go `lower(c)` of `strconv`: `c | ('x' - 'X')`. -/
def lower (c : Char) : Nat := c.toNat ||| 0x20

/-- The digit a character stands for in `strconv.ParseUint`, if any. -/
def digitVal (c : Char) : Option Nat :=
  if '0'.toNat ≤ c.toNat ∧ c.toNat ≤ '9'.toNat then some (c.toNat - '0'.toNat)
  else if 'a'.toNat ≤ lower c ∧ lower c ≤ 'z'.toNat then some (lower c - 'a'.toNat + 10)
  else none

/-- The digit loop of `strconv.ParseUint`, with the accumulator `n` a `uint64`. -/
def parseDigits (base cutoff maxVal : Nat) : Nat → Str → Nat × Option NumError
  | n, [] => (n, none)
  | n, c :: cs =>
    match digitVal c with
    | none => (0, some NumError.ErrSyntax)
    | some d =>
      if d ≥ base then (0, some NumError.ErrSyntax)
      else if n ≥ cutoff then (maxVal, some NumError.ErrRange)
      else
        let n0 := (n * base) % 2 ^ 64
        let n1 := (n0 + d) % 2 ^ 64
        if n1 < n0 ∨ n1 > maxVal then (maxVal, some NumError.ErrRange)
        else parseDigits base cutoff maxVal n1 cs

/-- Go `strconv.ParseUint(s, base, bitSize)` for an explicit base `2 ≤ base ≤ 36`
and `1 ≤ bitSize ≤ 64`, the way the package calls it (base 10, 64 bits). -/
def ParseUint (s : Str) (base bitSize : Nat) : Nat × Option NumError :=
  if s = [] then (0, some NumError.ErrSyntax)
  else parseDigits base ((2 ^ 64 - 1) / base + 1) (2 ^ bitSize - 1) 0 s

/-! ## The lease parser -/

/-- One DHCP lease record. -/
structure DnsmasqLease where
  ExpireTimeStamp : Nat
  MACAddr : Str
  IPAddr : Str
  HostName : Str
  ClientID : Str
  deriving DecidableEq, Repr

/-- One pass of the loop body of `convertLeases` over a line. -/
def convertLine (leases : List DnsmasqLease) (line : Str) : List DnsmasqLease :=
  if line = [] then leases
  else
    let chunks := Split line " ".toList
    if chunks.length ≠ 5 then leases
    else
      let expTime := (ParseUint (chunks.getD 0 []) 10 64).1
      let l : DnsmasqLease :=
        { ExpireTimeStamp := expTime
          MACAddr := chunks.getD 1 []
          IPAddr := chunks.getD 2 []
          HostName := chunks.getD 3 []
          ClientID := chunks.getD 4 [] }
      leases ++ [l]

/-- Go `convertLeases`. -/
def convertLeases (leasesContent : Str) : List DnsmasqLease :=
  let lines := Split leasesContent "\n".toList
  lines.foldl convertLine []

/-! ## Collaborators and configuration -/

/-- Modelled from the spec: the file-reading collaborator `util.FileReaderFn`,
a function taking a path and returning the content as text and an error
(`none` is Go's `nil` error). -/
abbrev FileReaderFn (ε : Type) := Str → Str × Option ε

/-- Modelled from the spec: the configuration object `context.Config`, of which
the package reads the bridge network address and the ordered list of extra
process arguments. -/
structure Config where
  BridgeAddr : Str
  DnsmasqArgs : List Str
  deriving DecidableEq, Repr

/-- Modelled from the spec: `context.MainContext`, the holder of the
configuration. -/
structure MainContext where
  Cfg : Config
  deriving DecidableEq, Repr

/-! ## The argument synthesizer -/

/-- One pass of the trust-anchor loop body of `collectInternalArgs` over a line. -/
def collectLine (args : List Str) (line : Str) : List Str :=
  if line = [] then args
  else
    let a := Replace line ". IN DS ".toList "--trust-anchor=.,".toList 1
    let a := Replace a " ".toList ",".toList (-1)
    args ++ [a]

/-- Go `fmt.Sprintf("--dhcp-range=%s.50,%s.250,12h", ipPrefix, ipPrefix)`. -/
def dhcpRangeFlag (ipPrefix : Str) : Str :=
  "--dhcp-range=".toList ++ ipPrefix ++ ".50,".toList ++ ipPrefix ++ ".250,12h".toList

/-- Go `collectInternalArgs`.  The slice expression `dhcpIPChunks[:3]` panics
when the split of the bridge address has fewer than three components. -/
def collectInternalArgs {ε : Type} (fileReaderFn : FileReaderFn ε) (c : MainContext) :
    Option (List Str) :=
  let args : List Str :=
    [ "--keep-in-foreground".toList,
      "--conf-dir=/etc/dnsmasq.d,.dpkg-dist,.dpkg-old,.dpkg-new".toList,
      "--local-service".toList ]
  let (trustAnchor, err) := fileReaderFn "/usr/share/dns/root.ds".toList
  let args :=
    if err.isNone then
      let lines := Split trustAnchor "\n".toList
      lines.foldl collectLine args
    else args
  let dhcpIPChunks := Split c.Cfg.BridgeAddr ".".toList
  if 3 ≤ dhcpIPChunks.length then
    let ipPrefix := Join (dhcpIPChunks.take 3) ".".toList
    some (args ++ [dhcpRangeFlag ipPrefix])
  else none

/-! ## The process supervisor -/

/-- Go `os.ProcessState`, the record of a process that has finished and been
waited for; the package reads `Exited()`, which is false for a process ended
by a signal. -/
structure ProcessState where
  exited : Bool
  deriving DecidableEq, Repr

/-- Go `exec.Cmd`, of which the model keeps the argument vector (the name of
the binary, as given, comes first) and the process state, which is `nil` until
the process has been waited for, so `nil` for a process that is alive.  The
field `Path`, which `exec.Command` resolves through `LookPath`, is not
modelled. -/
structure Cmd where
  Args : List Str
  ProcessState : Option ProcessState
  deriving DecidableEq, Repr

/-- Go `exec.Command(name, arg...)`. -/
def Command (name : Str) (arg : List Str) : Cmd :=
  { Args := name :: arg, ProcessState := none }

/-- Modelled from the spec: the launching collaborator `util.ExecPipeCmd`, which
receives the command, launches it with the standard streams piped and returns
an error (`none` is `nil`); the command is returned as the collaborator left
it. -/
abbrev ExecPipeCmdFn (ε : Type) := Cmd → Cmd × Option ε

/-- Go `DnsmasqProcess`. -/
structure DnsmasqProcess (ε : Type) where
  ctx : MainContext
  proc : Option Cmd
  fileReaderFn : FileReaderFn ε

/-- Go `NewDnsmasqProcess`. -/
def NewDnsmasqProcess {ε : Type} (reader : FileReaderFn ε) (c : MainContext) :
    DnsmasqProcess ε :=
  { ctx := c, proc := none, fileReaderFn := reader }

/-- Go built-in `copy(dst, src)`: the first `min(len(dst), len(src))` elements
of `dst` are overwritten with those of `src`; the result is `dst` afterwards. -/
def copy {α : Type} (dst src : List α) : List α :=
  src.take (min dst.length src.length) ++ dst.drop (min dst.length src.length)

/-- Go `isRunning`: `p.proc != nil && !p.proc.ProcessState.Exited()`.  Calling
`Exited` on a `nil` process state, the state of a held command whose process
is alive, panics. -/
def isRunning {ε : Type} (p : DnsmasqProcess ε) : Option Bool :=
  match p.proc with
  | none => some false
  | some cmd =>
    match cmd.ProcessState with
    | none => none
    | some st => some (!st.exited)

/-- What a call of `Start` leaves behind: the returned error, the supervisor
afterwards, and the command handed to the launcher, if any. -/
structure StartResult (ε : Type) where
  err : Option ε
  after : DnsmasqProcess ε
  launched : Option Cmd

/-- Go `Start`.  The slice `p.ctx.Cfg.DnsmasqArgs` shares its backing array with
the configuration, so what `copy` writes into it is written into the
configuration. -/
def Start {ε : Type} (ExecPipeCmd : ExecPipeCmdFn ε) (p : DnsmasqProcess ε) :
    Option (StartResult ε) :=
  match isRunning p with
  | none => none
  | some true => some { err := none, after := p, launched := none }
  | some false =>
    match collectInternalArgs p.fileReaderFn p.ctx with
    | none => none
    | some internalArgs =>
      let args : List Str :=
        List.replicate (internalArgs.length + p.ctx.Cfg.DnsmasqArgs.length) []
      let _internalArgs := copy internalArgs args
      let cfgArgs := copy p.ctx.Cfg.DnsmasqArgs (args.drop internalArgs.length)
      let p1 : DnsmasqProcess ε :=
        { p with ctx := { Cfg := { p.ctx.Cfg with DnsmasqArgs := cfgArgs } } }
      let cmd := Command "dnsmasq".toList args
      let (cmd1, err) := ExecPipeCmd cmd
      match err with
      | some e => some { err := some e, after := p1, launched := some cmd }
      | none => some { err := none, after := { p1 with proc := some cmd1 }, launched := some cmd }

/-- The operating system's side of Go `os.Process.Kill`: the error
`ErrProcessDone` of `os` ("os: process already finished") and the outcome of
sending the termination signal to the process of a command that has not been
waited for (`none` is `nil`). -/
structure KillEnv (ε : Type) where
  ErrProcessDone : ε
  signal : Cmd → Option ε

/-- Go `os.Process.Kill` on the process of a held command.  A command whose
process state is set has been waited for: its process is finished and the call
returns `ErrProcessDone`. -/
def Kill {ε : Type} (os : KillEnv ε) (cmd : Cmd) : Option ε :=
  match cmd.ProcessState with
  | some _ => some os.ErrProcessDone
  | none => os.signal cmd

/-- What a call of `Stop` leaves behind: the returned error, the supervisor
afterwards, and the command whose process was sent the termination signal, if
any. -/
structure StopResult (ε : Type) where
  err : Option ε
  after : DnsmasqProcess ε
  killed : Option Cmd

/-- Go `Stop`. -/
def Stop {ε : Type} (os : KillEnv ε) (p : DnsmasqProcess ε) : Option (StopResult ε) :=
  match isRunning p with
  | none => none
  | some false => some { err := none, after := p, killed := none }
  | some true =>
    match p.proc with
    | none => none
    | some cmd =>
      match Kill os cmd with
      | some e => some { err := some e, after := p, killed := some cmd }
      | none => some { err := none, after := { p with proc := none }, killed := some cmd }

/-- What a call of `Restart` leaves behind: the returned error, the supervisor
afterwards, the command whose process was sent the termination signal and the
command handed to the launcher, if any. -/
structure RestartResult (ε : Type) where
  err : Option ε
  after : DnsmasqProcess ε
  killed : Option Cmd
  launched : Option Cmd

/-- Go `Restart`. -/
def Restart {ε : Type} (os : KillEnv ε) (ExecPipeCmd : ExecPipeCmdFn ε)
    (p : DnsmasqProcess ε) : Option (RestartResult ε) :=
  match Stop os p with
  | none => none
  | some s =>
    match s.err with
    | some e => some { err := some e, after := s.after, killed := s.killed, launched := none }
    | none =>
      match Start ExecPipeCmd s.after with
      | none => none
      | some r =>
        match r.err with
        | some e =>
          some { err := some e, after := r.after, killed := s.killed, launched := r.launched }
        | none =>
          some { err := none, after := r.after, killed := s.killed, launched := r.launched }

/-- One pass of the argument scan of `ReadLeases`.  The index expression
`strings.Split(arg, "=")[1]` panics when the split has a single component. -/
def leasePathStep (leaseFilePath : Option Str) (arg : Str) : Option Str :=
  match leaseFilePath with
  | none => none
  | some path =>
    if HasPrefix arg "--dhcp-leasefile=".toList then (Split arg "=".toList).get? 1
    else some path

/-- The lease-file path `ReadLeases` hands to the file reader. -/
def leaseFilePath (DnsmasqArgs : List Str) : Option Str :=
  DnsmasqArgs.foldl leasePathStep (some "/var/lib/misc/dnsmasq.leases".toList)

/-- Go `ReadLeases`: the pair of the returned leases (`none` is the `nil`
slice) and the returned error. -/
def ReadLeases {ε : Type} (p : DnsmasqProcess ε) :
    Option (Option (List DnsmasqLease) × Option ε) :=
  match leaseFilePath p.ctx.Cfg.DnsmasqArgs with
  | none => none
  | some path =>
    let (leaseFileContent, err) := p.fileReaderFn path
    match err with
    | some e => some (none, some e)
    | none => some (some (convertLeases leaseFileContent), none)

/-! ## Notions used to state the properties -/

/-- A lease line is well formed when splitting it on the single space
character yields exactly five fields. -/
def wellFormed (line : Str) : Bool :=
  decide ((Split line " ".toList).length = 5)

/-- The record `convertLeases` builds from the fields of a line. -/
def leaseOfLine (line : Str) : DnsmasqLease :=
  { ExpireTimeStamp := (ParseUint ((Split line " ".toList).getD 0 []) 10 64).1
    MACAddr := (Split line " ".toList).getD 1 []
    IPAddr := (Split line " ".toList).getD 2 []
    HostName := (Split line " ".toList).getD 3 []
    ClientID := (Split line " ".toList).getD 4 [] }

/-- The records of the well-formed lines of a lease file, in line order. -/
def leasesOfLines (lines : List Str) : List DnsmasqLease :=
  (lines.filter wellFormed).map leaseOfLine

/-- The decimal digits `0` to `9`. -/
def isDecDigit (c : Char) : Bool :=
  decide ('0'.toNat ≤ c.toNat ∧ c.toNat ≤ '9'.toNat)

/-- The number denoted by a string of decimal digits read after the number `n`. -/
def decFrom (n : Nat) (s : Str) : Nat :=
  s.foldl (fun m c => 10 * m + (c.toNat - '0'.toNat)) n

/-- The number denoted by a string of decimal digits. -/
def decVal (s : Str) : Nat := decFrom 0 s

/-- A decimal numeral: a non-empty string of decimal digits. -/
def isNumeral (s : Str) : Bool := !s.isEmpty && s.all isDecDigit

/-- The character of a decimal digit. -/
def digitChar (d : Nat) : Char := Char.ofNat ('0'.toNat + d)

/-- The decimal rendering of a number, without leading zeros
(Go `strconv.FormatUint(n, 10)`). -/
def FormatUint (n : Nat) : Str :=
  if n = 0 then ['0'] else (Nat.digits 10 n).reverse.map digitChar

/-- The three fixed flags every argument list starts with. -/
def fixedFlags : List Str :=
  [ "--keep-in-foreground".toList,
    "--conf-dir=/etc/dnsmasq.d,.dpkg-dist,.dpkg-old,.dpkg-new".toList,
    "--local-service".toList ]

/-- The argument the trust-anchor loop emits for a non-empty line. -/
def trustAnchorArg (line : Str) : Str :=
  Replace (Replace line ". IN DS ".toList "--trust-anchor=.,".toList 1) " ".toList ",".toList (-1)

/-- The arguments the trust-anchor loop emits for a list of lines: one for each
non-empty line, in line order. -/
def anchorArgs (lines : List Str) : List Str :=
  (lines.filter (fun line => decide (line ≠ []))).map trustAnchorArg

/-- The trust-anchor arguments for what the file reader returns for the
trust-anchor file: none when the reader returns an error. -/
def trustAnchorFlags {ε : Type} (fileReaderFn : FileReaderFn ε) : List Str :=
  match fileReaderFn "/usr/share/dns/root.ds".toList with
  | (trustAnchor, none) => anchorArgs (Split trustAnchor "\n".toList)
  | (_, some _) => []

/-- A string with every space turned into a comma. -/
def commas (s : Str) : Str := s.map (fun c => if c = ' ' then ',' else c)

/-- The command `Start` hands to the launcher from a state in which no
process is running: the binary `dnsmasq` with the slice `args` as `Start`
leaves it. -/
def launchedCmd {ε : Type} (p : DnsmasqProcess ε) : Option Cmd :=
  (collectInternalArgs p.fileReaderFn p.ctx).map (fun internalArgs =>
    Command "dnsmasq".toList
      (List.replicate (internalArgs.length + p.ctx.Cfg.DnsmasqArgs.length) []))

/-- The supervisor as `Start` leaves its configuration: every configured
extra argument is overwritten with the empty string. -/
def blankArgs {ε : Type} (p : DnsmasqProcess ε) : DnsmasqProcess ε :=
  { p with ctx := { Cfg := { p.ctx.Cfg with
      DnsmasqArgs := List.replicate p.ctx.Cfg.DnsmasqArgs.length [] } } }

/-- White space in the sense of Go `unicode.IsSpace`. -/
def isSpace (c : Char) : Bool :=
  (9 ≤ c.toNat && c.toNat ≤ 13) || c.toNat = 0x20 || c.toNat = 0x85 || c.toNat = 0xA0
    || c.toNat = 0x1680 || (0x2000 ≤ c.toNat && c.toNat ≤ 0x200A) || c.toNat = 0x2028
    || c.toNat = 0x2029 || c.toNat = 0x202F || c.toNat = 0x205F || c.toNat = 0x3000

/-- The fields of a string after the field being read, `cur`, kept reversed. -/
def fieldsFrom (cur : Str) : Str → List Str
  | [] => if cur = [] then [] else [cur.reverse]
  | c :: cs =>
    if isSpace c then
      if cur = [] then fieldsFrom [] cs else cur.reverse :: fieldsFrom [] cs
    else fieldsFrom (c :: cur) cs

/-- The white-space-delimited fields of a string (Go `strings.Fields`): the
maximal runs of characters that are not white space. -/
def Fields (s : Str) : List Str := fieldsFrom [] s

/-! ## Facts about the library model -/

theorem hasPrefix_single (c x : Char) (cs : Str) :
    HasPrefix (c :: cs) [x] = decide (c = x) := by
  simp [HasPrefix]

theorem split_single (s : Str) (x : Char) : Split s [x] = splitFrom [x] 0 s := by
  simp [Split]

theorem splitFrom_ne_nil (sep : Str) : ∀ (s : Str) (k : Nat), splitFrom sep k s ≠ []
  | [], k => by simp [splitFrom]
  | c :: cs, k + 1 => by
    rw [splitFrom]
    exact splitFrom_ne_nil sep cs k
  | c :: cs, 0 => by
    rw [splitFrom]
    split
    · simp
    · split <;> simp

theorem splitFrom_cons_sep (x : Char) (cs : Str) :
    splitFrom [x] 0 (x :: cs) = [] :: splitFrom [x] 0 cs := by
  rw [splitFrom]
  simp [hasPrefix_single]

theorem splitFrom_cons_other {c x : Char} (h : c ≠ x) (cs : Str) :
    splitFrom [x] 0 (c :: cs) =
      (c :: (splitFrom [x] 0 cs).headD []) :: (splitFrom [x] 0 cs).tail := by
  rw [splitFrom]
  simp only [hasPrefix_single, decide_eq_true_eq, h, if_false]
  cases hs : splitFrom [x] 0 cs with
  | nil => exact absurd hs (splitFrom_ne_nil _ _ _)
  | cons piece pieces => simp

/-- A string without the separator is its own single piece. -/
theorem split_of_not_mem {x : Char} : ∀ {s : Str}, x ∉ s → Split s [x] = [s]
  | [], _ => by simp [Split, splitFrom]
  | c :: cs, h => by
    have hc : c ≠ x := fun e => h (by simp [e])
    have hcs : x ∉ cs := fun m => h (List.mem_cons_of_mem _ m)
    have ih := split_of_not_mem hcs
    rw [split_single] at ih ⊢
    rw [splitFrom_cons_other hc, ih]
    simp

/-- Splitting distributes over concatenation at a separator. -/
theorem split_append (x : Char) (b : Str) :
    ∀ a : Str, Split (a ++ x :: b) [x] = Split a [x] ++ Split b [x]
  | [] => by
    simp only [split_single, List.nil_append, splitFrom_cons_sep]
    simp [splitFrom]
  | c :: cs => by
    have ih := split_append x b cs
    simp only [split_single] at ih ⊢
    by_cases hc : c = x
    · subst hc
      simp [splitFrom_cons_sep, ih]
    · rw [List.cons_append, splitFrom_cons_other hc, splitFrom_cons_other hc, ih]
      cases hs : splitFrom [x] 0 cs with
      | nil => exact absurd hs (splitFrom_ne_nil _ _ _)
      | cons piece pieces => simp

/-- Joining the pieces of a split with the separator gives the string back. -/
theorem join_split (x : Char) : ∀ s : Str, Join (Split s [x]) [x] = s
  | [] => by simp [Split, splitFrom, Join]
  | c :: cs => by
    have ih := join_split x cs
    simp only [split_single] at ih ⊢
    by_cases hc : c = x
    · subst hc
      rw [splitFrom_cons_sep]
      cases hs : splitFrom [c] 0 cs with
      | nil => exact absurd hs (splitFrom_ne_nil _ _ _)
      | cons piece pieces =>
        rw [hs] at ih
        simp [Join, ih]
    · rw [splitFrom_cons_other hc]
      cases hs : splitFrom [x] 0 cs with
      | nil => exact absurd hs (splitFrom_ne_nil _ _ _)
      | cons piece pieces =>
        rw [hs] at ih
        cases pieces with
        | nil => simpa [Join] using ih
        | cons q qs =>
          simp only [Join, List.headD_cons, List.tail_cons, List.cons_append] at ih ⊢
          rw [ih]

/-- No piece of a split contains the separator. -/
theorem not_mem_of_mem_split (x : Char) :
    ∀ (s : Str) (piece : Str), piece ∈ Split s [x] → x ∉ piece
  | [], piece, h => by
    simp [Split, splitFrom] at h
    simp [h]
  | c :: cs, piece, h => by
    have ih := not_mem_of_mem_split x cs
    simp only [split_single] at ih h
    by_cases hc : c = x
    · subst hc
      rw [splitFrom_cons_sep] at h
      rcases List.mem_cons.1 h with h | h
      · simp [h]
      · exact ih _ h
    · rw [splitFrom_cons_other hc] at h
      cases hs : splitFrom [x] 0 cs with
      | nil => exact absurd hs (splitFrom_ne_nil _ _ _)
      | cons q qs =>
        rw [hs] at h ih
        simp only [List.headD_cons, List.tail_cons, List.mem_cons] at h
        rcases h with h | h
        · subst h
          have hq := ih q (by simp)
          intro hm
          rcases List.mem_cons.1 hm with e | m
          · exact hc e.symm
          · exact hq m
        · exact ih _ (by simp [h])

/-! ## The lease parser: which lines become records -/

theorem space_toList : " ".toList = [' '] := rfl

theorem newline_toList : "\n".toList = ['\n'] := rfl

theorem wellFormed_nil : wellFormed [] = false := by
  simp [wellFormed, Split, splitFrom, space_toList]

theorem convertLine_eq (leases : List DnsmasqLease) (line : Str) :
    convertLine leases line =
      leases ++ (if wellFormed line = true then [leaseOfLine line] else []) := by
  by_cases hl : line = []
  · subst hl
    simp [convertLine, wellFormed_nil]
  · by_cases hw : (Split line [' ']).length = 5
    · simp [convertLine, hl, wellFormed, hw, leaseOfLine, space_toList]
    · simp [convertLine, hl, wellFormed, hw, space_toList]

theorem foldl_convertLine (lines : List Str) :
    ∀ leases : List DnsmasqLease,
      lines.foldl convertLine leases = leases ++ leasesOfLines lines := by
  induction lines with
  | nil => intro leases; simp [leasesOfLines]
  | cons line rest ih =>
    intro leases
    rw [List.foldl_cons, ih, convertLine_eq]
    by_cases hw : wellFormed line = true
    · simp [leasesOfLines, List.filter_cons, hw]
    · simp [leasesOfLines, List.filter_cons, hw]

/-- C1: for every lease-file content, `convertLeases` returns exactly the
records of the well-formed lines (the lines whose split on the single space
has five fields), in line order, one record per well-formed line; every other
line, the empty ones included, contributes nothing. -/
theorem convertLeases_wellFormed_lines (leasesContent : Str) :
    convertLeases leasesContent
        = ((Split leasesContent "\n".toList).filter wellFormed).map leaseOfLine
      ∧ (convertLeases leasesContent).length
        = (Split leasesContent "\n".toList).countP wellFormed
      ∧ wellFormed [] = false := by
  have h : convertLeases leasesContent
      = ((Split leasesContent "\n".toList).filter wellFormed).map leaseOfLine := by
    unfold convertLeases
    simp only [foldl_convertLine, List.nil_append, leasesOfLines]
  refine ⟨h, ?_, wellFormed_nil⟩
  rw [h, List.length_map, List.countP_eq_length_filter]

/-! ## The timestamp parser -/

theorem digitVal_of_digit {c : Char} (h : isDecDigit c = true) :
    digitVal c = some (c.toNat - '0'.toNat) := by
  simp only [isDecDigit, decide_eq_true_eq] at h
  unfold digitVal
  rw [if_pos h]

theorem digitVal_of_not_digit {c : Char} (h : isDecDigit c = false) :
    ∀ d, digitVal c = some d → 10 ≤ d := by
  intro d hd
  simp only [isDecDigit, decide_eq_false_iff_not] at h
  unfold digitVal at hd
  rw [if_neg h] at hd
  split at hd
  · simp only [Option.some.injEq] at hd
    omega
  · exact absurd hd (by simp)

theorem digit_lt_ten {c : Char} (h : isDecDigit c = true) : c.toNat - '0'.toNat < 10 := by
  simp only [isDecDigit, decide_eq_true_eq] at h
  have h0 : '0'.toNat = 48 := rfl
  have h9 : '9'.toNat = 57 := rfl
  omega

theorem decFrom_cons (n : Nat) (c : Char) (cs : Str) :
    decFrom n (c :: cs) = decFrom (10 * n + (c.toNat - '0'.toNat)) cs := rfl

theorem le_decFrom : ∀ (s : Str) (n : Nat), n ≤ decFrom n s
  | [], n => by simp [decFrom]
  | c :: cs, n => by
    rw [decFrom_cons]
    have := le_decFrom cs (10 * n + (c.toNat - '0'.toNat))
    omega

/-- What the digit loop of `ParseUint` returns in base 10 on 64 bits. -/
theorem parseDigits_spec : ∀ (s : Str) (n : Nat), n < 2 ^ 64 →
    parseDigits 10 ((2 ^ 64 - 1) / 10 + 1) (2 ^ 64 - 1) n s =
      if 2 ^ 64 ≤ decFrom n (s.takeWhile isDecDigit) then (2 ^ 64 - 1, some NumError.ErrRange)
      else if s.all isDecDigit = true then (decFrom n s, none)
      else (0, some NumError.ErrSyntax)
  | [], n, hn => by
    have hlt : ¬ (2 ^ 64 ≤ n) := by omega
    simp only [parseDigits, decFrom, List.takeWhile_nil, List.foldl_nil, List.all_nil]
    rw [if_neg hlt]
    simp
  | c :: cs, n, hn => by
    rw [parseDigits]
    by_cases hc : isDecDigit c = true
    · have hd := digit_lt_ten hc
      have hge := le_decFrom (cs.takeWhile isDecDigit) (10 * n + (c.toNat - '0'.toNat))
      rw [digitVal_of_digit hc]
      simp only [List.takeWhile_cons, hc, if_true, decFrom_cons, List.all_cons, Bool.true_and]
      norm_num at hn hge ⊢
      rw [if_neg (by omega)]
      by_cases hcut : 1844674407370955162 ≤ n
      · rw [if_pos hcut, if_pos (by omega)]
      · rw [if_neg hcut]
        have e0 : n * 10 % 18446744073709551616 = n * 10 := Nat.mod_eq_of_lt (by omega)
        rw [e0]
        by_cases hov : 18446744073709551616 ≤ n * 10 + (c.toNat - '0'.toNat)
        · have e1 : (n * 10 + (c.toNat - '0'.toNat)) % 18446744073709551616
              = n * 10 + (c.toNat - '0'.toNat) - 18446744073709551616 := by omega
          rw [e1, if_pos (by omega), if_pos (by omega)]
        · have e1 : (n * 10 + (c.toNat - '0'.toNat)) % 18446744073709551616
              = n * 10 + (c.toNat - '0'.toNat) := Nat.mod_eq_of_lt (by omega)
          rw [e1, if_neg (by omega)]
          have ih := parseDigits_spec cs (n * 10 + (c.toNat - '0'.toNat)) (by norm_num; omega)
          norm_num at ih
          rw [ih, Nat.mul_comm 10 n]
    · have hc' : isDecDigit c = false := by simpa using hc
      have hnot : ¬ (2 ^ 64 ≤ n) := by omega
      simp only [List.takeWhile_cons, hc', List.all_cons, Bool.false_and, decFrom]
      simp only [Bool.false_eq_true, if_false, List.foldl_nil, hnot]
      cases hv : digitVal c with
      | none => rfl
      | some d =>
        have := digitVal_of_not_digit hc' d hv
        simp [this]

/-- What `ParseUint` returns in base 10 on 64 bits: zero with a syntax error
on the empty string and when a character that is not a digit is met, the
largest value with a range error as soon as the digits read denote more than
`2 ^ 64 - 1`, and the number denoted otherwise. -/
theorem parseUint_spec (s : Str) :
    ParseUint s 10 64 =
      if s = [] then (0, some NumError.ErrSyntax)
      else if 2 ^ 64 ≤ decVal (s.takeWhile isDecDigit) then (2 ^ 64 - 1, some NumError.ErrRange)
      else if s.all isDecDigit = true then (decVal s, none)
      else (0, some NumError.ErrSyntax) := by
  unfold ParseUint decVal
  by_cases hs : s = []
  · simp [hs]
  · rw [if_neg hs, if_neg hs]
    exact parseDigits_spec s 0 (by norm_num)

theorem parseUint_numeral {s : Str} (h : isNumeral s = true) (hv : decVal s < 2 ^ 64) :
    ParseUint s 10 64 = (decVal s, none) := by
  simp only [isNumeral, Bool.and_eq_true, Bool.not_eq_true', List.isEmpty_eq_false] at h
  have htw : s.takeWhile isDecDigit = s :=
    List.takeWhile_eq_self_iff.2 (by simpa using h.2)
  rw [parseUint_spec, if_neg h.1, htw, if_neg (by omega), if_pos h.2]

theorem parseUint_overflow {s : Str} (hv : 2 ^ 64 ≤ decVal (s.takeWhile isDecDigit)) :
    ParseUint s 10 64 = (2 ^ 64 - 1, some NumError.ErrRange) := by
  have hs : s ≠ [] := by
    intro e
    subst e
    simp [decVal, decFrom] at hv
  rw [parseUint_spec, if_neg hs, if_pos hv]

theorem parseUint_not_numeral {s : Str} (h : isNumeral s = false)
    (hv : decVal (s.takeWhile isDecDigit) < 2 ^ 64) :
    ParseUint s 10 64 = (0, some NumError.ErrSyntax) := by
  rw [parseUint_spec]
  by_cases hs : s = []
  · rw [if_pos hs]
  · rw [if_neg hs, if_neg (by omega)]
    have hall : ¬ (s.all isDecDigit = true) := by
      intro hall
      simp [isNumeral, hs, hall] at h
    rw [if_neg hall]

theorem numeral_takeWhile {s : Str} (h : isNumeral s = true) :
    s.takeWhile isDecDigit = s := by
  simp only [isNumeral, Bool.and_eq_true] at h
  exact List.takeWhile_eq_self_iff.2 (by simpa using h.2)

/-! ## The decimal rendering -/

theorem digitChar_toNat {d : Nat} (h : d < 10) : (digitChar d).toNat = '0'.toNat + d := by
  interval_cases d <;> rfl

theorem isDecDigit_digitChar {d : Nat} (h : d < 10) : isDecDigit (digitChar d) = true := by
  interval_cases d <;> rfl

theorem decFrom_append (n : Nat) (a b : Str) : decFrom n (a ++ b) = decFrom (decFrom n a) b := by
  simp [decFrom, List.foldl_append]

theorem decVal_render : ∀ l : List Nat, (∀ d ∈ l, d < 10) →
    decVal (l.reverse.map digitChar) = Nat.ofDigits 10 l
  | [], _ => by simp [decVal, decFrom]
  | d :: t, h => by
    have hd : d < 10 := h d (by simp)
    have ih := decVal_render t (fun x hx => h x (List.mem_cons_of_mem _ hx))
    simp only [decVal] at ih ⊢
    rw [List.reverse_cons, List.map_append, decFrom_append, ih, Nat.ofDigits_cons]
    simp only [List.map_cons, List.map_nil, decFrom, List.foldl_cons, List.foldl_nil,
      digitChar_toNat hd]
    omega

theorem formatUint_numeral (n : Nat) : isNumeral (FormatUint n) = true := by
  unfold FormatUint
  by_cases hn : n = 0
  · simp [hn, isNumeral]
    rfl
  · rw [if_neg hn]
    have hne : Nat.digits 10 n ≠ [] := by
      simpa [Nat.digits_eq_nil_iff_eq_zero] using hn
    simp only [isNumeral, Bool.and_eq_true, Bool.not_eq_true', List.isEmpty_eq_false,
      List.all_eq_true]
    refine ⟨by simpa using hne, ?_⟩
    intro c hc
    simp only [List.mem_map, List.mem_reverse] at hc
    obtain ⟨d, hd, rfl⟩ := hc
    exact isDecDigit_digitChar (Nat.digits_lt_base (by norm_num) hd)

theorem decVal_formatUint (n : Nat) : decVal (FormatUint n) = n := by
  unfold FormatUint
  by_cases hn : n = 0
  · subst hn
    rfl
  · rw [if_neg hn, decVal_render _ (fun d hd => Nat.digits_lt_base (by norm_num) hd),
      Nat.ofDigits_digits]

/-- Parsing the decimal rendering of a 64-bit number gives the number back. -/
theorem parseUint_formatUint {n : Nat} (h : n < 2 ^ 64) :
    ParseUint (FormatUint n) 10 64 = (n, none) := by
  have := parseUint_numeral (formatUint_numeral n) (by rw [decVal_formatUint]; exact h)
  rwa [decVal_formatUint] at this

/-! ## The lease parser: the record of one line -/

/-- A line without a newline that splits into five fields yields exactly the
record of these fields. -/
theorem convertLeases_single {line f1 f2 f3 f4 f5 : Str} (hnl : '\n' ∉ line)
    (hs : Split line " ".toList = [f1, f2, f3, f4, f5]) :
    convertLeases line = [⟨(ParseUint f1 10 64).1, f2, f3, f4, f5⟩] := by
  rw [space_toList] at hs
  have hw : wellFormed line = true := by simp [wellFormed, hs]
  unfold convertLeases
  rw [newline_toList, split_of_not_mem hnl, List.foldl_cons, List.foldl_nil, convertLine_eq,
    if_pos hw]
  simp [leaseOfLine, hs]

theorem join_five (line f1 f2 f3 f4 f5 : Str)
    (hs : Split line " ".toList = [f1, f2, f3, f4, f5]) :
    Join [f1, f2, f3, f4, f5] " ".toList = line := by
  rw [← hs, space_toList]
  exact join_split ' ' line

/-- C2 (amended): a line without a newline that splits on single spaces into
exactly five fields `f1 .. f5` yields one record whose MAC, IP, host name and
client id are `f2 .. f5` unchanged.  Its expiry is the number denoted by `f1`
when `f1` is a decimal numeral of a value below `2 ^ 64`, is `2 ^ 64 - 1` when
the numeral denotes more, and is `0` when `f1` is not a numeral (and its leading
digits stay below `2 ^ 64`).  When `f1` is the decimal rendering of a number
below `2 ^ 64`, the expiry is that number and joining the rendering of the
expiry and the other four fields with single spaces reconstructs the line. -/
theorem convertLeases_line_roundtrip (line f1 f2 f3 f4 f5 : Str) (hnl : '\n' ∉ line)
    (hs : Split line " ".toList = [f1, f2, f3, f4, f5]) :
    ∃ t : Nat, convertLeases line = [⟨t, f2, f3, f4, f5⟩]
      ∧ (isNumeral f1 = true → decVal f1 < 2 ^ 64 → t = decVal f1)
      ∧ (isNumeral f1 = true → 2 ^ 64 ≤ decVal f1 → t = 2 ^ 64 - 1)
      ∧ (isNumeral f1 = false → decVal (f1.takeWhile isDecDigit) < 2 ^ 64 → t = 0)
      ∧ (∀ n : Nat, n < 2 ^ 64 → f1 = FormatUint n →
          t = n ∧ Join [FormatUint t, f2, f3, f4, f5] " ".toList = line) := by
  refine ⟨(ParseUint f1 10 64).1, convertLeases_single hnl hs, ?_, ?_, ?_, ?_⟩
  · intro hnum hv
    rw [parseUint_numeral hnum hv]
  · intro hnum hv
    rw [parseUint_overflow (by rw [numeral_takeWhile hnum]; exact hv)]
  · intro hnum hv
    rw [parseUint_not_numeral hnum hv]
  · intro n hn hf
    have ht : (ParseUint f1 10 64).1 = n := by rw [hf, parseUint_formatUint hn]
    refine ⟨ht, ?_⟩
    rw [ht, ← hf]
    exact join_five line f1 f2 f3 f4 f5 hs

/-- C2, witness: the lease line of the specification. -/
theorem convertLeases_line_roundtrip_witness :
    '\n' ∉ "1700000000 aa:bb:cc:dd:ee:ff 10.1.2.50 myhost 01:aa:bb".toList
      ∧ Split "1700000000 aa:bb:cc:dd:ee:ff 10.1.2.50 myhost 01:aa:bb".toList " ".toList
        = ["1700000000".toList, "aa:bb:cc:dd:ee:ff".toList, "10.1.2.50".toList,
            "myhost".toList, "01:aa:bb".toList]
      ∧ ∃ t : Nat,
        convertLeases "1700000000 aa:bb:cc:dd:ee:ff 10.1.2.50 myhost 01:aa:bb".toList
          = [⟨t, "aa:bb:cc:dd:ee:ff".toList, "10.1.2.50".toList, "myhost".toList,
              "01:aa:bb".toList⟩]
        ∧ (isNumeral "1700000000".toList = true → decVal "1700000000".toList < 2 ^ 64 →
            t = decVal "1700000000".toList)
        ∧ (isNumeral "1700000000".toList = true → 2 ^ 64 ≤ decVal "1700000000".toList →
            t = 2 ^ 64 - 1)
        ∧ (isNumeral "1700000000".toList = false →
            decVal ("1700000000".toList.takeWhile isDecDigit) < 2 ^ 64 → t = 0)
        ∧ (∀ n : Nat, n < 2 ^ 64 → "1700000000".toList = FormatUint n →
            t = n ∧ Join [FormatUint t, "aa:bb:cc:dd:ee:ff".toList, "10.1.2.50".toList,
              "myhost".toList, "01:aa:bb".toList] " ".toList
              = "1700000000 aa:bb:cc:dd:ee:ff 10.1.2.50 myhost 01:aa:bb".toList) :=
  ⟨by decide, by decide,
    convertLeases_line_roundtrip _ _ _ _ _ _ (by decide) (by decide)⟩

/-- C2, counterexample: the first field of this five-field line is a decimal
numeral denoting `99999999999999999999`, yet the expiry of the record is
`2 ^ 64 - 1`. -/
theorem convertLeases_numeral_overflow_counterexample :
    '\n' ∉ "99999999999999999999 aa bb cc dd".toList
      ∧ Split "99999999999999999999 aa bb cc dd".toList " ".toList
        = ["99999999999999999999".toList, "aa".toList, "bb".toList, "cc".toList, "dd".toList]
      ∧ isNumeral "99999999999999999999".toList = true
      ∧ decVal "99999999999999999999".toList = 99999999999999999999
      ∧ convertLeases "99999999999999999999 aa bb cc dd".toList
        = [⟨18446744073709551615, "aa".toList, "bb".toList, "cc".toList, "dd".toList⟩]
      ∧ (18446744073709551615 : Nat) ≠ decVal "99999999999999999999".toList := by
  decide

/-- C3 (amended): a five-field line whose first field fails to parse as an
unsigned 64-bit decimal integer still yields its record, with the other four
fields preserved.  The parse fails exactly when the field is not a decimal
numeral or denotes more than `2 ^ 64 - 1`; the expiry is `0` on a syntax
failure (the field is empty, or a character that is not a digit is met while
the digits read stay below `2 ^ 64`) and `2 ^ 64 - 1` on a range failure (the
leading digits denote more than `2 ^ 64 - 1`). -/
theorem convertLeases_unparsable_timestamp (line f1 f2 f3 f4 f5 : Str) (hnl : '\n' ∉ line)
    (hs : Split line " ".toList = [f1, f2, f3, f4, f5])
    (hfail : (ParseUint f1 10 64).2 ≠ none) :
    ∃ t : Nat, convertLeases line = [⟨t, f2, f3, f4, f5⟩]
      ∧ (isNumeral f1 = false ∨ 2 ^ 64 ≤ decVal f1)
      ∧ (decVal (f1.takeWhile isDecDigit) < 2 ^ 64 →
          t = 0 ∧ (ParseUint f1 10 64).2 = some NumError.ErrSyntax)
      ∧ (2 ^ 64 ≤ decVal (f1.takeWhile isDecDigit) →
          t = 2 ^ 64 - 1 ∧ (ParseUint f1 10 64).2 = some NumError.ErrRange) := by
  refine ⟨(ParseUint f1 10 64).1, convertLeases_single hnl hs, ?_, ?_, ?_⟩
  · by_cases hnum : isNumeral f1 = true
    · right
      by_contra hv
      rw [parseUint_numeral hnum (by omega)] at hfail
      exact hfail rfl
    · left
      simpa using hnum
  · intro hv
    by_cases hnum : isNumeral f1 = true
    · rw [numeral_takeWhile hnum] at hv
      rw [parseUint_numeral hnum hv] at hfail
      exact absurd rfl hfail
    · rw [parseUint_not_numeral (by simpa using hnum) hv]
      exact ⟨rfl, rfl⟩
  · intro hv
    rw [parseUint_overflow hv]
    exact ⟨rfl, rfl⟩

/-- C3, witness: a signed timestamp. -/
theorem convertLeases_unparsable_timestamp_witness :
    '\n' ∉ "-1 aa bb cc dd".toList
      ∧ Split "-1 aa bb cc dd".toList " ".toList
        = ["-1".toList, "aa".toList, "bb".toList, "cc".toList, "dd".toList]
      ∧ (ParseUint "-1".toList 10 64).2 ≠ none
      ∧ ∃ t : Nat, convertLeases "-1 aa bb cc dd".toList
          = [⟨t, "aa".toList, "bb".toList, "cc".toList, "dd".toList⟩]
        ∧ (isNumeral "-1".toList = false ∨ 2 ^ 64 ≤ decVal "-1".toList)
        ∧ (decVal ("-1".toList.takeWhile isDecDigit) < 2 ^ 64 →
            t = 0 ∧ (ParseUint "-1".toList 10 64).2 = some NumError.ErrSyntax)
        ∧ (2 ^ 64 ≤ decVal ("-1".toList.takeWhile isDecDigit) →
            t = 2 ^ 64 - 1 ∧ (ParseUint "-1".toList 10 64).2 = some NumError.ErrRange) :=
  ⟨by decide, by decide, by decide,
    convertLeases_unparsable_timestamp _ _ _ _ _ _ (by decide) (by decide) (by decide)⟩

/-- C3, counterexample: the first field of this five-field line is a digit
string denoting `2 ^ 64`, which fails to parse, and the expiry of the record is
`2 ^ 64 - 1`, not `0`. -/
theorem convertLeases_range_failure_counterexample :
    Split "18446744073709551616 aa bb cc dd".toList " ".toList
        = ["18446744073709551616".toList, "aa".toList, "bb".toList, "cc".toList, "dd".toList]
      ∧ (ParseUint "18446744073709551616".toList 10 64).2 = some NumError.ErrRange
      ∧ convertLeases "18446744073709551616 aa bb cc dd".toList
        = [⟨18446744073709551615, "aa".toList, "bb".toList, "cc".toList, "dd".toList⟩]
      ∧ (convertLeases "18446744073709551616 aa bb cc dd".toList).map
          DnsmasqLease.ExpireTimeStamp ≠ [0] := by
  decide

/-! ## The trust-anchor transform -/

theorem hasPrefix_append (pre rest : Str) : HasPrefix (pre ++ rest) pre = true := by
  simp [HasPrefix]

theorem replaceFrom_exhausted (old new : Str) :
    ∀ (s : Str) (skip : Nat), replaceFrom old new skip (some 0) s = s.drop skip
  | [], skip => by simp [replaceFrom]
  | c :: cs, skip + 1 => by
    rw [replaceFrom, replaceFrom_exhausted old new cs skip]
    rfl
  | c :: cs, 0 => by
    rw [replaceFrom, if_neg (by simp), replaceFrom_exhausted old new cs 0]
    simp

/-- Replacing every space by a comma, character by character. -/
theorem replaceFrom_space : ∀ s : Str, replaceFrom [' '] [','] 0 none s = commas s
  | [] => by simp [replaceFrom, commas]
  | c :: cs => by
    have ih := replaceFrom_space cs
    rw [replaceFrom]
    by_cases hc : c = ' '
    · subst hc
      simp only [hasPrefix_single, decide_True, ne_eq, not_false_eq_true, and_self, if_true,
        reduceCtorEq, List.length_singleton, Nat.sub_self, Option.map_none']
      rw [ih]
      simp [commas]
    · simp only [hasPrefix_single, hc, decide_False, Bool.false_eq_true, and_false, if_false]
      rw [ih]
      simp [commas, hc]

theorem replace_space (s : Str) : Replace s " ".toList ",".toList (-1) = commas s := by
  have h1 : " ".toList = [' '] := rfl
  have h2 : ",".toList = [','] := rfl
  rw [h1, h2]
  unfold Replace
  simp only [List.cons.injEq, and_true, Char.reduceEq, Int.reduceNeg, Int.reduceLT,
    if_true, reduceCtorEq, or_self, if_false, Int.neg_eq_zero, one_ne_zero, Int.reduceEq]
  exact replaceFrom_space s

theorem commas_append (a b : Str) : commas (a ++ b) = commas a ++ commas b := by
  simp [commas]

theorem commas_of_not_mem : ∀ {s : Str}, ' ' ∉ s → commas s = s
  | [], _ => rfl
  | c :: cs, h => by
    have hc : c ≠ ' ' := fun e => h (by simp [e])
    have hcs : ' ' ∉ cs := fun m => h (List.mem_cons_of_mem _ m)
    have ih := commas_of_not_mem hcs
    simp only [commas] at ih ⊢
    simp [hc, ih]

theorem not_mem_commas (s : Str) : ' ' ∉ commas s := by
  simp only [commas, List.mem_map, not_exists, not_and]
  intro c _
  by_cases hc : c = ' ' <;> simp [hc]

/-- The record keyword can only match where the second character is a space. -/
theorem hasPrefix_keyword_second {c x : Char} {s : Str}
    (h : HasPrefix (c :: x :: s) ". IN DS ".toList = true) : x = ' ' := by
  simp only [HasPrefix, Bool.and_eq_true, decide_eq_true_eq] at h
  have h2 := h.2
  simp at h2
  exact h2.2.1

/-- The first replacement rewrites the first record keyword, which comes right
after a domain that has no space in it. -/
theorem replaceFrom_keyword (rest : Str) : ∀ dom : Str, ' ' ∉ dom →
    replaceFrom ". IN DS ".toList "--trust-anchor=.,".toList 0 (some 1)
        (dom ++ ". IN DS ".toList ++ rest)
      = dom ++ "--trust-anchor=.,".toList ++ rest
  | [], _ => by
    have hp := hasPrefix_append ". IN DS ".toList rest
    have e : ". IN DS ".toList ++ rest = '.' :: (" IN DS ".toList ++ rest) := rfl
    show replaceFrom ". IN DS ".toList "--trust-anchor=.,".toList 0 (some 1)
        (". IN DS ".toList ++ rest) = "--trust-anchor=.,".toList ++ rest
    rw [e] at hp ⊢
    rw [replaceFrom, if_pos ⟨by simp, hp⟩]
    simp only [Option.map_some']
    rw [replaceFrom_exhausted]
    rfl
  | c :: cs, h => by
    have hc : c ≠ ' ' := fun e => h (by simp [e])
    have hcs : ' ' ∉ cs := fun m => h (List.mem_cons_of_mem _ m)
    have ih := replaceFrom_keyword rest cs hcs
    have hno : ¬ (HasPrefix (c :: (cs ++ ". IN DS ".toList ++ rest)) ". IN DS ".toList = true) := by
      intro hp
      cases cs with
      | nil =>
        have := hasPrefix_keyword_second (x := '.') (s := " IN DS ".toList ++ rest) hp
        exact absurd this (by decide)
      | cons x xs =>
        have := hasPrefix_keyword_second (x := x) (s := xs ++ ". IN DS ".toList ++ rest) hp
        exact h (by simp [this])
    have e : c :: cs ++ ". IN DS ".toList ++ rest = c :: (cs ++ ". IN DS ".toList ++ rest) := rfl
    rw [e, replaceFrom, if_neg (fun hh => hno hh.2), ih]
    rfl

/-- The argument emitted for a delegation-signer line whose domain has no
space: the domain, the flag with key `.`, and the rest of the line with every
space turned into a comma. -/
theorem trustAnchorArg_record (dom rest : Str) (h : ' ' ∉ dom) :
    trustAnchorArg (dom ++ ". IN DS ".toList ++ rest)
      = dom ++ "--trust-anchor=.,".toList ++ commas rest := by
  unfold trustAnchorArg
  have e : Replace (dom ++ ". IN DS ".toList ++ rest) ". IN DS ".toList
      "--trust-anchor=.,".toList 1 = dom ++ "--trust-anchor=.,".toList ++ rest := by
    unfold Replace
    rw [if_neg (by decide), if_neg (by decide)]
    exact replaceFrom_keyword rest dom h
  rw [e, replace_space, commas_append, commas_append, commas_of_not_mem h,
    commas_of_not_mem (s := "--trust-anchor=.,".toList) (by decide)]

/-! ## The argument synthesizer -/

theorem collectLine_eq (args : List Str) (line : Str) :
    collectLine args line = args ++ anchorArgs [line] := by
  by_cases hl : line = []
  · simp [collectLine, anchorArgs, hl]
  · simp [collectLine, anchorArgs, hl, trustAnchorArg]

theorem anchorArgs_cons (line : Str) (lines : List Str) :
    anchorArgs (line :: lines) = anchorArgs [line] ++ anchorArgs lines := by
  by_cases hl : line = [] <;> simp [anchorArgs, List.filter_cons, hl]

theorem anchorArgs_append (xs ys : List Str) :
    anchorArgs (xs ++ ys) = anchorArgs xs ++ anchorArgs ys := by
  simp [anchorArgs]

theorem foldl_collectLine (lines : List Str) :
    ∀ args : List Str, lines.foldl collectLine args = args ++ anchorArgs lines := by
  induction lines with
  | nil => intro args; simp [anchorArgs]
  | cons line rest ih =>
    intro args
    rw [List.foldl_cons, ih, collectLine_eq, anchorArgs_cons line rest, List.append_assoc]

/-- The argument list of `collectInternalArgs` for a bridge address with at
least three components. -/
theorem collectInternalArgs_eq {ε : Type} (fileReaderFn : FileReaderFn ε) (c : MainContext)
    (h : 3 ≤ (Split c.Cfg.BridgeAddr ".".toList).length) :
    collectInternalArgs fileReaderFn c
      = some (fixedFlags ++ trustAnchorFlags fileReaderFn
          ++ [dhcpRangeFlag (Join ((Split c.Cfg.BridgeAddr ".".toList).take 3) ".".toList)]) := by
  unfold collectInternalArgs trustAnchorFlags
  rcases hr : fileReaderFn "/usr/share/dns/root.ds".toList with ⟨content, _ | e⟩
  · simp only [Option.isNone_none, if_true, foldl_collectLine, if_pos h]
    rfl
  · simp only [Option.isNone_some, Bool.false_eq_true, if_false, if_pos h]
    rfl

theorem join_three (a b o : Str) (rest : List Str) :
    Join ((a :: b :: o :: rest).take 3) ".".toList
      = a ++ ".".toList ++ b ++ ".".toList ++ o := by
  simp [Join]

/-- C5: for a bridge address with at least three dot-separated components and
any file reader, `collectInternalArgs` returns the three fixed flags, then one
argument per non-empty line of the trust-anchor file in line order (none when
the reader returns an error, which is not an error of the synthesizer), then
one DHCP-range flag as the last element; the length is 4 plus the number of
non-empty trust-anchor lines. -/
theorem collectInternalArgs_shape {ε : Type} (fileReaderFn : FileReaderFn ε) (c : MainContext)
    (h : 3 ≤ (Split c.Cfg.BridgeAddr ".".toList).length) :
    collectInternalArgs fileReaderFn c
        = some ([ "--keep-in-foreground".toList,
                  "--conf-dir=/etc/dnsmasq.d,.dpkg-dist,.dpkg-old,.dpkg-new".toList,
                  "--local-service".toList ]
            ++ (match fileReaderFn "/usr/share/dns/root.ds".toList with
                | (trustAnchor, none) =>
                  ((Split trustAnchor "\n".toList).filter (fun line => decide (line ≠ []))).map
                    trustAnchorArg
                | (_, some _) => [])
            ++ [dhcpRangeFlag (Join ((Split c.Cfg.BridgeAddr ".".toList).take 3) ".".toList)])
      ∧ ∀ args, collectInternalArgs fileReaderFn c = some args →
          args.length
              = 4 + (match fileReaderFn "/usr/share/dns/root.ds".toList with
                | (trustAnchor, none) =>
                  (Split trustAnchor "\n".toList).countP (fun line => decide (line ≠ []))
                | (_, some _) => 0)
            ∧ args.getLast? = some (dhcpRangeFlag
                (Join ((Split c.Cfg.BridgeAddr ".".toList).take 3) ".".toList)) := by
  have heq := collectInternalArgs_eq fileReaderFn c h
  unfold trustAnchorFlags at heq
  constructor
  · rw [heq]
    rcases fileReaderFn "/usr/share/dns/root.ds".toList with ⟨content, _ | e⟩
    · rfl
    · rfl
  · intro args hargs
    rw [heq] at hargs
    have hargs := (Option.some.inj hargs).symm
    subst hargs
    rcases fileReaderFn "/usr/share/dns/root.ds".toList with ⟨content, _ | e⟩
    · refine ⟨?_, by simp⟩
      simp only [fixedFlags, anchorArgs, List.length_append, List.length_map, List.length_cons,
        List.length_nil, List.countP_eq_length_filter]
      omega
    · refine ⟨?_, by simp⟩
      simp [fixedFlags]

/-- C5, witness: the bridge address and the root record of the specification. -/
theorem collectInternalArgs_shape_witness :
    3 ≤ (Split "10.1.2.1".toList ".".toList).length
      ∧ collectInternalArgs (ε := Nat)
          (fun _ => (". IN DS 20326 8 2 E06D\n".toList, none)) ⟨⟨"10.1.2.1".toList, []⟩⟩
        = some ["--keep-in-foreground".toList,
            "--conf-dir=/etc/dnsmasq.d,.dpkg-dist,.dpkg-old,.dpkg-new".toList,
            "--local-service".toList,
            "--trust-anchor=.,20326,8,2,E06D".toList,
            "--dhcp-range=10.1.2.50,10.1.2.250,12h".toList] :=
  ⟨by decide,
    (collectInternalArgs_shape (ε := Nat)
      (fun _ => (". IN DS 20326 8 2 E06D\n".toList, none)) ⟨⟨"10.1.2.1".toList, []⟩⟩
      (by decide)).1.trans (by decide)⟩

/-- C6: when the split of the bridge address on `.` starts with the components
`a`, `b`, `o`, the DHCP-range flag, the last argument of `collectInternalArgs`,
is exactly `--dhcp-range=a.b.o.50,a.b.o.250,12h`. -/
theorem collectInternalArgs_dhcp_range {ε : Type} (fileReaderFn : FileReaderFn ε)
    (c : MainContext) (a b o : Str) (rest : List Str)
    (h : Split c.Cfg.BridgeAddr ".".toList = a :: b :: o :: rest) :
    collectInternalArgs fileReaderFn c
      = some (fixedFlags ++ trustAnchorFlags fileReaderFn
          ++ ["--dhcp-range=".toList ++ a ++ ".".toList ++ b ++ ".".toList ++ o ++ ".50,".toList
              ++ a ++ ".".toList ++ b ++ ".".toList ++ o ++ ".250,12h".toList]) := by
  rw [collectInternalArgs_eq fileReaderFn c (by rw [h]; simp), h, join_three]
  simp [dhcpRangeFlag]

/-- C6, witness: bridge address `10.1.2.1` gives the pool `10.1.2.50` to
`10.1.2.250` with a 12-hour lease. -/
theorem collectInternalArgs_dhcp_range_witness :
    Split "10.1.2.1".toList ".".toList = ["10".toList, "1".toList, "2".toList, "1".toList]
      ∧ collectInternalArgs (ε := Nat) (fun _ => ([], some 2)) ⟨⟨"10.1.2.1".toList, []⟩⟩
        = some (fixedFlags ++ [] ++ ["--dhcp-range=10.1.2.50,10.1.2.250,12h".toList]) :=
  ⟨by decide,
    (collectInternalArgs_dhcp_range (ε := Nat) (fun _ => ([], some 2))
      ⟨⟨"10.1.2.1".toList, []⟩⟩ "10".toList "1".toList "2".toList ["1".toList]
      (by decide)).trans (by decide)⟩

theorem anchorArgs_record (pre post : List Str) (dom rest : Str) (h : ' ' ∉ dom) :
    anchorArgs (pre ++ (dom ++ ". IN DS ".toList ++ rest) :: post)
      = anchorArgs pre ++ [dom ++ "--trust-anchor=.,".toList ++ commas rest]
          ++ anchorArgs post := by
  have e : anchorArgs [dom ++ ". IN DS ".toList ++ rest]
      = [dom ++ "--trust-anchor=.,".toList ++ commas rest] := by
    unfold anchorArgs
    rw [List.filter_cons_of_pos (by simp), List.filter_nil, List.map_cons,
      List.map_nil, trustAnchorArg_record dom rest h]
  rw [anchorArgs_append, anchorArgs_cons, e]
  simp

/-- C7: when the trust-anchor file is readable and one of its lines is
`. IN DS k a t d` with `k`, `a`, `t`, `d` free of spaces, the argument emitted
for that line, at the place of the line among the arguments of the non-empty
lines, is exactly `--trust-anchor=.,k,a,t,d`. -/
theorem collectInternalArgs_root_record {ε : Type} (fileReaderFn : FileReaderFn ε)
    (c : MainContext) (trustAnchor : Str) (pre post : List Str) (k a t d : Str)
    (hread : fileReaderFn "/usr/share/dns/root.ds".toList = (trustAnchor, none))
    (hlines : Split trustAnchor "\n".toList
      = pre ++ (". IN DS ".toList ++ k ++ " ".toList ++ a ++ " ".toList ++ t ++ " ".toList ++ d)
          :: post)
    (hk : ' ' ∉ k) (ha : ' ' ∉ a) (ht : ' ' ∉ t) (hd : ' ' ∉ d)
    (hbridge : 3 ≤ (Split c.Cfg.BridgeAddr ".".toList).length) :
    collectInternalArgs fileReaderFn c
      = some (fixedFlags ++ anchorArgs pre
          ++ ["--trust-anchor=.,".toList ++ k ++ ",".toList ++ a ++ ",".toList ++ t
              ++ ",".toList ++ d]
          ++ anchorArgs post
          ++ [dhcpRangeFlag (Join ((Split c.Cfg.BridgeAddr ".".toList).take 3) ".".toList)]) := by
  have hline : ". IN DS ".toList ++ k ++ " ".toList ++ a ++ " ".toList ++ t ++ " ".toList ++ d
      = [] ++ ". IN DS ".toList ++ (k ++ " ".toList ++ a ++ " ".toList ++ t ++ " ".toList ++ d) := by
    simp
  have hcommas : commas (k ++ " ".toList ++ a ++ " ".toList ++ t ++ " ".toList ++ d)
      = k ++ ",".toList ++ a ++ ",".toList ++ t ++ ",".toList ++ d := by
    simp only [commas_append, commas_of_not_mem hk, commas_of_not_mem ha, commas_of_not_mem ht,
      commas_of_not_mem hd]
    rfl
  rw [collectInternalArgs_eq fileReaderFn c hbridge]
  unfold trustAnchorFlags
  rw [hread]
  simp only [hlines, hline]
  rw [anchorArgs_record pre post [] _ (by simp), hcommas]
  simp

/-- C7, witness: the root record of the specification. -/
theorem collectInternalArgs_root_record_witness :
    collectInternalArgs (ε := Nat)
        (fun _ =>
          (". IN DS 20326 8 2 E06D44B80B8F1D39A95C0B0D7C65D08458E880409BBC683457104237C7F8EC8".toList,
            none))
        ⟨⟨"10.1.2.1".toList, []⟩⟩
      = some (fixedFlags ++ anchorArgs []
          ++ ["--trust-anchor=.,".toList ++ "20326".toList ++ ",".toList ++ "8".toList
              ++ ",".toList ++ "2".toList ++ ",".toList
              ++ "E06D44B80B8F1D39A95C0B0D7C65D08458E880409BBC683457104237C7F8EC8".toList]
          ++ anchorArgs []
          ++ [dhcpRangeFlag (Join ((Split "10.1.2.1".toList ".".toList).take 3) ".".toList)])
      ∧ "--trust-anchor=.,".toList ++ "20326".toList ++ ",".toList ++ "8".toList
          ++ ",".toList ++ "2".toList ++ ",".toList
          ++ "E06D44B80B8F1D39A95C0B0D7C65D08458E880409BBC683457104237C7F8EC8".toList
        = "--trust-anchor=.,20326,8,2,E06D44B80B8F1D39A95C0B0D7C65D08458E880409BBC683457104237C7F8EC8".toList :=
  ⟨collectInternalArgs_root_record (ε := Nat)
      (fun _ =>
        (". IN DS 20326 8 2 E06D44B80B8F1D39A95C0B0D7C65D08458E880409BBC683457104237C7F8EC8".toList,
          none))
      ⟨⟨"10.1.2.1".toList, []⟩⟩
      ". IN DS 20326 8 2 E06D44B80B8F1D39A95C0B0D7C65D08458E880409BBC683457104237C7F8EC8".toList
      [] [] "20326".toList "8".toList "2".toList
      "E06D44B80B8F1D39A95C0B0D7C65D08458E880409BBC683457104237C7F8EC8".toList
      rfl (by decide) (by decide) (by decide) (by decide) (by decide) (by decide),
    by decide⟩

/-- C8 (amended): when the trust-anchor file is readable and one of its lines
is `<domain>. IN DS <rest>` with a domain free of spaces, the single argument
emitted for that line is the domain, then `--trust-anchor=.,`, then the rest
of the line with every space turned into a comma.  It begins with
`--trust-anchor=` when the domain is empty (the root record), and does not
when the domain is non-empty and does not start with `-`. -/
theorem collectInternalArgs_domain_record {ε : Type} (fileReaderFn : FileReaderFn ε)
    (c : MainContext) (trustAnchor : Str) (pre post : List Str) (dom rest : Str)
    (hread : fileReaderFn "/usr/share/dns/root.ds".toList = (trustAnchor, none))
    (hlines : Split trustAnchor "\n".toList = pre ++ (dom ++ ". IN DS ".toList ++ rest) :: post)
    (hdom : ' ' ∉ dom)
    (hbridge : 3 ≤ (Split c.Cfg.BridgeAddr ".".toList).length) :
    collectInternalArgs fileReaderFn c
        = some (fixedFlags ++ anchorArgs pre
            ++ [dom ++ "--trust-anchor=.,".toList ++ commas rest]
            ++ anchorArgs post
            ++ [dhcpRangeFlag (Join ((Split c.Cfg.BridgeAddr ".".toList).take 3) ".".toList)])
      ∧ (dom = [] →
          HasPrefix (dom ++ "--trust-anchor=.,".toList ++ commas rest) "--trust-anchor=".toList
            = true)
      ∧ (dom ≠ [] → dom.head? ≠ some '-' →
          HasPrefix (dom ++ "--trust-anchor=.,".toList ++ commas rest) "--trust-anchor=".toList
            = false) := by
  refine ⟨?_, ?_, ?_⟩
  · rw [collectInternalArgs_eq fileReaderFn c hbridge]
    unfold trustAnchorFlags
    rw [hread]
    simp only [hlines]
    rw [anchorArgs_record pre post dom rest hdom]
    simp
  · intro hd
    subst hd
    exact hasPrefix_append "--trust-anchor=".toList (".,".toList ++ commas rest)
  · intro hne hhead
    cases dom with
    | nil => exact absurd rfl hne
    | cons x xs =>
      have hx : x ≠ '-' := fun e => hhead (by simp [e])
      simp [HasPrefix, hx]

/-- C8, witness: a root record and a record of the domain `example.com`. -/
theorem collectInternalArgs_domain_record_witness :
    collectInternalArgs (ε := Nat)
        (fun _ => (". IN DS 20326 8 2 E06D\nexample.com. IN DS 370 13 2 BE74".toList, none))
        ⟨⟨"10.1.2.1".toList, []⟩⟩
      = some (fixedFlags ++ anchorArgs [". IN DS 20326 8 2 E06D".toList]
          ++ ["example.com".toList ++ "--trust-anchor=.,".toList ++ commas "370 13 2 BE74".toList]
          ++ anchorArgs []
          ++ [dhcpRangeFlag (Join ((Split "10.1.2.1".toList ".".toList).take 3) ".".toList)])
      ∧ anchorArgs [". IN DS 20326 8 2 E06D".toList] = ["--trust-anchor=.,20326,8,2,E06D".toList]
      ∧ "example.com".toList ++ "--trust-anchor=.,".toList ++ commas "370 13 2 BE74".toList
        = "example.com--trust-anchor=.,370,13,2,BE74".toList :=
  ⟨(collectInternalArgs_domain_record (ε := Nat)
      (fun _ => (". IN DS 20326 8 2 E06D\nexample.com. IN DS 370 13 2 BE74".toList, none))
      ⟨⟨"10.1.2.1".toList, []⟩⟩
      ". IN DS 20326 8 2 E06D\nexample.com. IN DS 370 13 2 BE74".toList
      [". IN DS 20326 8 2 E06D".toList] [] "example.com".toList "370 13 2 BE74".toList
      rfl (by decide) (by decide) (by decide)).1,
    by decide, by decide⟩

/-- C8, counterexample: the trust-anchor file holds the single line
`example.com. IN DS 370 13 2 BE74`, a delegation-signer record of the domain
`example.com`; the single argument emitted for it does not begin with
`--trust-anchor=`. -/
theorem collectInternalArgs_domain_counterexample :
    collectInternalArgs (ε := Nat)
        (fun _ => ("example.com. IN DS 370 13 2 BE74".toList, none))
        ⟨⟨"10.1.2.1".toList, []⟩⟩
      = some ["--keep-in-foreground".toList,
          "--conf-dir=/etc/dnsmasq.d,.dpkg-dist,.dpkg-old,.dpkg-new".toList,
          "--local-service".toList,
          "example.com--trust-anchor=.,370,13,2,BE74".toList,
          "--dhcp-range=10.1.2.50,10.1.2.250,12h".toList]
      ∧ HasPrefix "example.com--trust-anchor=.,370,13,2,BE74".toList "--trust-anchor=".toList
        = false := by
  decide

/-! ## The process supervisor -/

/-- C4, the code at a failing input: no process is held, the bridge address is
`10.1.2.1`, the extra arguments are `--port=5353` and the trust-anchor file is
unreadable.  The internal arguments are the three fixed flags and the
DHCP-range flag, yet `Start` hands the launcher the name `dnsmasq` followed by
five empty strings as arguments, because both calls of `copy` have the destination
and the source exchanged; the second one also blanks the configured extra
arguments. -/
theorem start_launches_blank_arguments :
    collectInternalArgs (ε := Nat) (fun _ => ([], some 2))
        ⟨⟨"10.1.2.1".toList, ["--port=5353".toList]⟩⟩
      = some ["--keep-in-foreground".toList,
          "--conf-dir=/etc/dnsmasq.d,.dpkg-dist,.dpkg-old,.dpkg-new".toList,
          "--local-service".toList,
          "--dhcp-range=10.1.2.50,10.1.2.250,12h".toList]
      ∧ isRunning (NewDnsmasqProcess (ε := Nat) (fun _ => ([], some 2))
          ⟨⟨"10.1.2.1".toList, ["--port=5353".toList]⟩⟩) = some false
      ∧ (Start (ε := Nat) (fun cmd => (cmd, none))
          (NewDnsmasqProcess (fun _ => ([], some 2))
            ⟨⟨"10.1.2.1".toList, ["--port=5353".toList]⟩⟩)).map
          (fun r => (r.err, r.launched.map (fun cmd => cmd.Args),
            r.after.ctx.Cfg.DnsmasqArgs))
        = some (none, some ["dnsmasq".toList, [], [], [], [], []], [[]]) := by
  decide

/-- C9, the code at a failing input: the only extra argument is
`--dhcp-leasefile=/tmp/a=b.leases`.  The substring after the flag is
`/tmp/a=b.leases`, yet the path handed to the file reader (returned here by the
reader as its error) is `/tmp/a`, the second component of the split of the
argument on `=`. -/
theorem readLeases_path_cut_at_equals :
    HasPrefix "--dhcp-leasefile=/tmp/a=b.leases".toList "--dhcp-leasefile=".toList = true
      ∧ "--dhcp-leasefile=/tmp/a=b.leases".toList.drop "--dhcp-leasefile=".toList.length
        = "/tmp/a=b.leases".toList
      ∧ leaseFilePath ["--dhcp-leasefile=/tmp/a=b.leases".toList] = some "/tmp/a".toList
      ∧ ReadLeases (ε := Str)
          { ctx := ⟨⟨"10.1.2.1".toList, ["--dhcp-leasefile=/tmp/a=b.leases".toList]⟩⟩
            proc := none
            fileReaderFn := fun path => ([], some path) }
        = some (none, some "/tmp/a".toList) := by
  decide

theorem leasePathStep_some (path arg : Str) : ∃ q, leasePathStep (some path) arg = some q := by
  show ∃ q, (if HasPrefix arg "--dhcp-leasefile=".toList = true
    then (Split arg "=".toList).get? 1 else some path) = some q
  by_cases hp : HasPrefix arg "--dhcp-leasefile=".toList = true
  · rw [if_pos hp]
    have hp2 := hp
    simp only [HasPrefix, Bool.and_eq_true, decide_eq_true_eq] at hp2
    have harg : arg = "--dhcp-leasefile".toList
        ++ '=' :: arg.drop "--dhcp-leasefile=".toList.length := by
      conv_lhs => rw [← List.take_append_drop "--dhcp-leasefile=".toList.length arg, hp2.2]
      rfl
    have h1 : "=".toList = ['='] := rfl
    rw [harg, h1, split_append]
    have hne := splitFrom_ne_nil ['='] (arg.drop "--dhcp-leasefile=".toList.length) 0
    rw [← split_single] at hne
    cases hr : Split (arg.drop "--dhcp-leasefile=".toList.length) ['='] with
    | nil => exact absurd hr hne
    | cons q qs =>
      refine ⟨q, ?_⟩
      have h2 : Split "--dhcp-leasefile".toList ['='] = ["--dhcp-leasefile".toList] := by decide
      rw [h2]
      rfl
  · rw [if_neg hp]
    exact ⟨path, rfl⟩

/-- The argument scan of `ReadLeases` never panics: it always selects a path. -/
theorem leaseFilePath_some (DnsmasqArgs : List Str) : ∃ path, leaseFilePath DnsmasqArgs = some path := by
  unfold leaseFilePath
  generalize "/var/lib/misc/dnsmasq.leases".toList = start
  induction DnsmasqArgs generalizing start with
  | nil => exact ⟨start, rfl⟩
  | cons arg rest ih =>
    obtain ⟨q, hq⟩ := leasePathStep_some start arg
    rw [List.foldl_cons, hq]
    exact ih q

/-- C10: `ReadLeases` always selects a path and hands it to the file reader.
If the reader returns an error for that path, `ReadLeases` returns no leases
and exactly that error; if the reader returns content without an error,
`ReadLeases` returns `convertLeases` of the content and no error.  So
`ReadLeases` returns an error if and only if the reader does, whatever the
content. -/
theorem readLeases_result {ε : Type} (p : DnsmasqProcess ε) :
    ∃ path, leaseFilePath p.ctx.Cfg.DnsmasqArgs = some path
      ∧ (∀ e, (p.fileReaderFn path).2 = some e → ReadLeases p = some (none, some e))
      ∧ ((p.fileReaderFn path).2 = none →
          ReadLeases p = some (some (convertLeases (p.fileReaderFn path).1), none))
      ∧ ∃ r, ReadLeases p = some r ∧ (r.2 ≠ none ↔ (p.fileReaderFn path).2 ≠ none) := by
  obtain ⟨path, hpath⟩ := leaseFilePath_some p.ctx.Cfg.DnsmasqArgs
  have hrun : ReadLeases p
      = match (p.fileReaderFn path).2 with
        | some e => some (none, some e)
        | none => some (some (convertLeases (p.fileReaderFn path).1), none) := by
    simp only [ReadLeases, hpath]
  refine ⟨path, hpath, ?_, ?_, ?_⟩
  · intro e he
    rw [hrun, he]
  · intro he
    rw [hrun, he]
  · rw [hrun]
    cases (p.fileReaderFn path).2 with
    | none => exact ⟨_, rfl, by simp⟩
    | some e => exact ⟨_, rfl, by simp⟩

/-! ## The process supervisor: start, stop, restart -/

theorem isRunning_no_handle {ε : Type} {p : DnsmasqProcess ε} (h : p.proc = none) :
    isRunning p = some false := by
  simp [isRunning, h]

theorem copy_blank {α : Type} (a : α) (dst : List α) (n : Nat) :
    copy dst ((List.replicate (n + dst.length) a).drop n) = List.replicate dst.length a := by
  simp [copy]

/-- A running supervisor is left alone by `Start`. -/
theorem start_running {ε : Type} (ExecPipeCmd : ExecPipeCmdFn ε) {p : DnsmasqProcess ε}
    (h : isRunning p = some true) :
    Start ExecPipeCmd p = some ⟨none, p, none⟩ := by
  simp [Start, h]

/-- What `Start` does when no process is running and the arguments can be
computed. -/
theorem start_not_running {ε : Type} (ExecPipeCmd : ExecPipeCmdFn ε) {p : DnsmasqProcess ε}
    {c : Cmd} (h : isRunning p = some false) (hc : launchedCmd p = some c) :
    Start ExecPipeCmd p
      = some (match (ExecPipeCmd c).2 with
          | some e => ⟨some e, blankArgs p, some c⟩
          | none => ⟨none, { blankArgs p with proc := some (ExecPipeCmd c).1 }, some c⟩) := by
  unfold launchedCmd at hc
  cases hI : collectInternalArgs p.fileReaderFn p.ctx with
  | none => simp [hI] at hc
  | some internalArgs =>
    rw [hI] at hc
    simp only [Option.map_some', Option.some.injEq] at hc
    subst hc
    simp only [Start, h, hI, copy_blank]
    cases (ExecPipeCmd (Command "dnsmasq".toList
        (List.replicate (internalArgs.length + p.ctx.Cfg.DnsmasqArgs.length) []))).2 with
    | none => rfl
    | some e => rfl

theorem launchedCmd_blankArgs {ε : Type} (p : DnsmasqProcess ε) :
    launchedCmd (blankArgs p) = launchedCmd p := by
  have hI : collectInternalArgs (blankArgs p).fileReaderFn (blankArgs p).ctx
      = collectInternalArgs p.fileReaderFn p.ctx := rfl
  unfold launchedCmd
  rw [hI]
  simp [blankArgs]

/-- A supervisor that is not running is left alone by `Stop`. -/
theorem stop_not_running {ε : Type} (os : KillEnv ε) {p : DnsmasqProcess ε}
    (h : isRunning p = some false) :
    Stop os p = some ⟨none, p, none⟩ := by
  simp [Stop, h]

/-- Where `isRunning` holds the process of the handle has been waited for, so
the termination inside `Stop` fails and the handle stays. -/
theorem stop_running {ε : Type} (os : KillEnv ε) {p : DnsmasqProcess ε} {cmd : Cmd}
    (h : isRunning p = some true) (hcmd : p.proc = some cmd) :
    Stop os p = some ⟨some os.ErrProcessDone, p, some cmd⟩ := by
  have hst : ∃ st, cmd.ProcessState = some st := by
    cases hps : cmd.ProcessState with
    | none => simp [isRunning, hcmd, hps] at h
    | some st => exact ⟨st, rfl⟩
  obtain ⟨st, hst⟩ := hst
  simp [Stop, h, hcmd, Kill, hst]

/-- A held command whose process is alive has a nil process state, on which
`isRunning` panics. -/
theorem isRunning_live {ε : Type} {p : DnsmasqProcess ε} {cmd : Cmd}
    (hcmd : p.proc = some cmd) (hlive : cmd.ProcessState = none) : isRunning p = none := by
  simp [isRunning, hcmd, hlive]

/-- With a live process held, `Start`, `Stop` and `Restart` all panic. -/
theorem live_handle_panics {ε : Type} (os : KillEnv ε) (ExecPipeCmd : ExecPipeCmdFn ε)
    {p : DnsmasqProcess ε} {cmd : Cmd}
    (hcmd : p.proc = some cmd) (hlive : cmd.ProcessState = none) :
    Start ExecPipeCmd p = none ∧ Stop os p = none ∧ Restart os ExecPipeCmd p = none := by
  have h := isRunning_live hcmd hlive
  have hstop : Stop os p = none := by simp [Stop, h]
  exact ⟨by simp [Start, h], hstop, by simp [Restart, hstop]⟩

/-- C11, the code at a failing input: the fresh supervisor is started with a
launcher that succeeds and leaves the command as `exec` leaves the command of a
process that is alive, with a nil process state.  The first `Start` launches
and holds that command as its handle, so a process is running; `isRunning`
then panics on the nil process state, and the second `Start` panics instead of
returning success. -/
theorem start_twice_panics :
    (Start (fun cmd => (cmd, none) : ExecPipeCmdFn Nat) (NewDnsmasqProcess (ε := Nat) (fun _ => ([], some 2))
          ⟨⟨"10.1.2.1".toList, ["--port=5353".toList]⟩⟩)).map (fun r => (r.err, r.launched, r.after.proc))
        = some (none, some (Command "dnsmasq".toList (List.replicate 5 [])), some (Command "dnsmasq".toList (List.replicate 5 [])))
      ∧ (Start (fun cmd => (cmd, none) : ExecPipeCmdFn Nat) (NewDnsmasqProcess (ε := Nat) (fun _ => ([], some 2))
          ⟨⟨"10.1.2.1".toList, ["--port=5353".toList]⟩⟩)).bind (fun r => isRunning r.after) = none
      ∧ (Start (fun cmd => (cmd, none) : ExecPipeCmdFn Nat) (NewDnsmasqProcess (ε := Nat) (fun _ => ([], some 2))
          ⟨⟨"10.1.2.1".toList, ["--port=5353".toList]⟩⟩)).bind (fun r => (Start (fun cmd => (cmd, none) : ExecPipeCmdFn Nat) r.after).map (fun r2 => r2.err)) = none := by
  refine ⟨?_, ?_, ?_⟩
  · decide
  · decide
  · decide

/-- C12: in every supervisor state where no handle is held, no process is
running and `Stop` returns success, sends no termination signal and leaves the
supervisor unchanged; the same holds in every state where no process is
running. -/
theorem stop_idempotent {ε : Type} (os : KillEnv ε) (p : DnsmasqProcess ε)
    (h : p.proc = none) :
    isRunning p = some false
      ∧ Stop os p = some ⟨none, p, none⟩
      ∧ ∀ q : DnsmasqProcess ε, isRunning q = some false → Stop os q = some ⟨none, q, none⟩ :=
  ⟨isRunning_no_handle h, stop_not_running os (isRunning_no_handle h),
    fun _ hq => stop_not_running os hq⟩

/-- C12, witness: the fresh supervisor and a termination that would fail. -/
theorem stop_idempotent_witness :
    (NewDnsmasqProcess (ε := Nat) (fun _ => ([], some 2))
          ⟨⟨"10.1.2.1".toList, ["--port=5353".toList]⟩⟩).proc = none
      ∧ Stop (⟨3, fun _ => some 9⟩ : KillEnv Nat) (NewDnsmasqProcess (ε := Nat) (fun _ => ([], some 2))
          ⟨⟨"10.1.2.1".toList, ["--port=5353".toList]⟩⟩) = some ⟨none, (NewDnsmasqProcess (ε := Nat) (fun _ => ([], some 2))
          ⟨⟨"10.1.2.1".toList, ["--port=5353".toList]⟩⟩), none⟩ :=
  ⟨rfl, (stop_idempotent (ε := Nat) (⟨3, fun _ => some 9⟩ : KillEnv Nat) (NewDnsmasqProcess (ε := Nat) (fun _ => ([], some 2))
          ⟨⟨"10.1.2.1".toList, ["--port=5353".toList]⟩⟩) rfl).2.1⟩

/-- C13: from every supervisor state in which no process is running, and for
every behaviour of the collaborators, `Restart` does what `Start` alone does:
the same returned error, the same launch with the same argument vector, the
same supervisor afterwards (and the same panic, if `Start` panics), and no
termination signal. -/
theorem restart_not_running {ε : Type} (os : KillEnv ε) (ExecPipeCmd : ExecPipeCmdFn ε)
    (p : DnsmasqProcess ε) (h : isRunning p = some false) :
    Restart os ExecPipeCmd p
      = (Start ExecPipeCmd p).map (fun r => ⟨r.err, r.after, none, r.launched⟩) := by
  unfold Restart
  rw [stop_not_running os h]
  simp only
  cases hs : Start ExecPipeCmd p with
  | none => rfl
  | some r =>
    cases hr : r.err with
    | none => simp [hr]
    | some e => simp [hr]

/-- C13, witness: the fresh supervisor. -/
theorem restart_not_running_witness :
    isRunning (NewDnsmasqProcess (ε := Nat) (fun _ => ([], some 2))
          ⟨⟨"10.1.2.1".toList, ["--port=5353".toList]⟩⟩) = some false
      ∧ Restart (⟨3, fun _ => some 9⟩ : KillEnv Nat) (fun cmd => (cmd, none) : ExecPipeCmdFn Nat) (NewDnsmasqProcess (ε := Nat) (fun _ => ([], some 2))
          ⟨⟨"10.1.2.1".toList, ["--port=5353".toList]⟩⟩)
        = (Start (fun cmd => (cmd, none) : ExecPipeCmdFn Nat) (NewDnsmasqProcess (ε := Nat) (fun _ => ([], some 2))
          ⟨⟨"10.1.2.1".toList, ["--port=5353".toList]⟩⟩)).map (fun r => ⟨r.err, r.after, none, r.launched⟩) :=
  ⟨by decide, restart_not_running (ε := Nat) (⟨3, fun _ => some 9⟩ : KillEnv Nat) (fun cmd => (cmd, none) : ExecPipeCmdFn Nat) (NewDnsmasqProcess (ε := Nat) (fun _ => ([], some 2))
          ⟨⟨"10.1.2.1".toList, ["--port=5353".toList]⟩⟩) (by decide)⟩

/-- C14, the code at a failing input: the supervisor holds the command of a
process that is alive, with a nil process state, so a process is running.
`isRunning` panics on the nil process state: `Stop` panics, and `Restart`
panics, whether the termination signal would fail or succeed and although the
launch would fail, instead of returning the termination error or the launch
error.  Where `isRunning` does hold, on the handle of a process already ended
by a signal and waited for, the termination fails with `ErrProcessDone` and
`Restart` returns it with the handle kept and nothing launched. -/
theorem restart_running_panics :
    isRunning (⟨⟨⟨"10.1.2.1".toList, ["--port=5353".toList]⟩⟩,
          some ⟨["dnsmasq".toList], none⟩,
          fun _ => ([], some 2)⟩ : DnsmasqProcess Nat) = none
      ∧ (Stop (⟨3, fun _ => some 9⟩ : KillEnv Nat) (⟨⟨⟨"10.1.2.1".toList, ["--port=5353".toList]⟩⟩,
          some ⟨["dnsmasq".toList], none⟩,
          fun _ => ([], some 2)⟩ : DnsmasqProcess Nat)).map (fun s => s.err) = none
      ∧ (Restart (⟨3, fun _ => some 9⟩ : KillEnv Nat) (fun cmd => (cmd, some 7) : ExecPipeCmdFn Nat) (⟨⟨⟨"10.1.2.1".toList, ["--port=5353".toList]⟩⟩,
          some ⟨["dnsmasq".toList], none⟩,
          fun _ => ([], some 2)⟩ : DnsmasqProcess Nat)).map (fun r => r.err) = none
      ∧ (Restart (⟨3, fun _ => none⟩ : KillEnv Nat) (fun cmd => (cmd, some 7) : ExecPipeCmdFn Nat) (⟨⟨⟨"10.1.2.1".toList, ["--port=5353".toList]⟩⟩,
          some ⟨["dnsmasq".toList], none⟩,
          fun _ => ([], some 2)⟩ : DnsmasqProcess Nat)).map (fun r => r.err) = none
      ∧ isRunning (⟨⟨⟨"10.1.2.1".toList, ["--port=5353".toList]⟩⟩,
          some ⟨["dnsmasq".toList], some ⟨false⟩⟩,
          fun _ => ([], some 2)⟩ : DnsmasqProcess Nat) = some true
      ∧ (Restart (⟨3, fun _ => none⟩ : KillEnv Nat) (fun cmd => (cmd, some 7) : ExecPipeCmdFn Nat) (⟨⟨⟨"10.1.2.1".toList, ["--port=5353".toList]⟩⟩,
          some ⟨["dnsmasq".toList], some ⟨false⟩⟩,
          fun _ => ([], some 2)⟩ : DnsmasqProcess Nat)).map (fun r => (r.err, r.after.proc, r.launched))
        = some (some 3, some ⟨["dnsmasq".toList], some ⟨false⟩⟩, none) := by
  refine ⟨?_, ?_, ?_, ?_, ?_, ?_⟩
  · decide
  · decide
  · decide
  · decide
  · decide
  · decide

/-- C15 (amended): from a not-running state in which the arguments can be
computed, `Start` launches; when the launch succeeds it returns success and
holds the launched command as its handle; when the launch fails it returns that
error and leaves the handle as it was (none if none was held, the handle of the
exited process otherwise), still not running, so that a later `Start` launches
again. -/
theorem start_handle {ε : Type} (ExecPipeCmd : ExecPipeCmdFn ε)
    (p : DnsmasqProcess ε) (c : Cmd)
    (hp : isRunning p = some false) (hc : launchedCmd p = some c) :
    ∃ r, Start ExecPipeCmd p = some r
      ∧ r.launched = some c
      ∧ ((ExecPipeCmd c).2 = none → r.err = none ∧ r.after.proc = some (ExecPipeCmd c).1)
      ∧ (∀ e, (ExecPipeCmd c).2 = some e →
          r.err = some e ∧ r.after.proc = p.proc ∧ isRunning r.after = some false
            ∧ launchedCmd r.after = some c)
      ∧ (p.proc = none → ∀ e, (ExecPipeCmd c).2 = some e → r.after.proc = none) := by
  have hstart := start_not_running ExecPipeCmd hp hc
  refine ⟨_, hstart, ?_, ?_, ?_, ?_⟩
  · cases (ExecPipeCmd c).2 <;> rfl
  · intro h
    rw [h]
    exact ⟨rfl, rfl⟩
  · intro e h
    rw [h]
    refine ⟨rfl, rfl, ?_, ?_⟩
    · exact hp
    · rw [launchedCmd_blankArgs]
      exact hc
  · intro hnone e h
    rw [h]
    exact hnone

/-- C15, witness: the fresh supervisor with a failing launch. -/
theorem start_handle_witness :
    isRunning (NewDnsmasqProcess (ε := Nat) (fun _ => ([], some 2))
          ⟨⟨"10.1.2.1".toList, ["--port=5353".toList]⟩⟩) = some false
      ∧ launchedCmd (NewDnsmasqProcess (ε := Nat) (fun _ => ([], some 2))
          ⟨⟨"10.1.2.1".toList, ["--port=5353".toList]⟩⟩) = some (Command "dnsmasq".toList (List.replicate 5 []))
      ∧ ∃ r, Start (fun cmd => (cmd, some 7) : ExecPipeCmdFn Nat) (NewDnsmasqProcess (ε := Nat) (fun _ => ([], some 2))
          ⟨⟨"10.1.2.1".toList, ["--port=5353".toList]⟩⟩) = some r
        ∧ r.launched = some (Command "dnsmasq".toList (List.replicate 5 []))
        ∧ (((fun cmd => (cmd, some 7) : ExecPipeCmdFn Nat) (Command "dnsmasq".toList (List.replicate 5 []))).2 = none → r.err = none ∧ r.after.proc = some ((fun cmd => (cmd, some 7) : ExecPipeCmdFn Nat) (Command "dnsmasq".toList (List.replicate 5 []))).1)
        ∧ (∀ e, ((fun cmd => (cmd, some 7) : ExecPipeCmdFn Nat) (Command "dnsmasq".toList (List.replicate 5 []))).2 = some e →
            r.err = some e ∧ r.after.proc = (NewDnsmasqProcess (ε := Nat) (fun _ => ([], some 2))
          ⟨⟨"10.1.2.1".toList, ["--port=5353".toList]⟩⟩).proc ∧ isRunning r.after = some false
              ∧ launchedCmd r.after = some (Command "dnsmasq".toList (List.replicate 5 [])))
        ∧ ((NewDnsmasqProcess (ε := Nat) (fun _ => ([], some 2))
          ⟨⟨"10.1.2.1".toList, ["--port=5353".toList]⟩⟩).proc = none → ∀ e, ((fun cmd => (cmd, some 7) : ExecPipeCmdFn Nat) (Command "dnsmasq".toList (List.replicate 5 []))).2 = some e → r.after.proc = none) :=
  ⟨by decide, by decide,
    start_handle (ε := Nat) (fun cmd => (cmd, some 7) : ExecPipeCmdFn Nat) (NewDnsmasqProcess (ε := Nat) (fun _ => ([], some 2))
          ⟨⟨"10.1.2.1".toList, ["--port=5353".toList]⟩⟩) (Command "dnsmasq".toList (List.replicate 5 [])) (by decide) (by decide)⟩

/-- C15, counterexample: the supervisor holds the handle of a process that has
exited, so no process is running; the launch inside `Start` fails with error
`7`; `Start` returns that error and the handle of the exited process is still
held. -/
theorem start_failure_keeps_stale_handle_counterexample :
    isRunning (⟨⟨⟨"10.1.2.1".toList, ["--port=5353".toList]⟩⟩,
          some ⟨["dnsmasq".toList], some ⟨true⟩⟩,
          fun _ => ([], some 2)⟩ : DnsmasqProcess Nat) = some false
      ∧ (Start (fun cmd => (cmd, some 7) : ExecPipeCmdFn Nat) (⟨⟨⟨"10.1.2.1".toList, ["--port=5353".toList]⟩⟩,
          some ⟨["dnsmasq".toList], some ⟨true⟩⟩,
          fun _ => ([], some 2)⟩ : DnsmasqProcess Nat)).map (fun r => (r.err, r.after.proc))
        = some (some 7, some ⟨["dnsmasq".toList], some ⟨true⟩⟩)
      ∧ (Start (fun cmd => (cmd, some 7) : ExecPipeCmdFn Nat) (⟨⟨⟨"10.1.2.1".toList, ["--port=5353".toList]⟩⟩,
          some ⟨["dnsmasq".toList], some ⟨true⟩⟩,
          fun _ => ([], some 2)⟩ : DnsmasqProcess Nat)).map (fun r => r.after.proc) ≠ some none := by
  refine ⟨?_, ?_, ?_⟩
  · decide
  · decide
  · decide

/-! ## The lease parser: single-space fields and line-wise concatenation -/

theorem convertLeases_eq (leasesContent : Str) :
    convertLeases leasesContent = leasesOfLines (Split leasesContent ['\n']) := by
  unfold convertLeases
  simp only [foldl_convertLine, List.nil_append, newline_toList]

theorem leasesOfLines_append (xs ys : List Str) :
    leasesOfLines (xs ++ ys) = leasesOfLines xs ++ leasesOfLines ys := by
  simp [leasesOfLines]

theorem convertLeases_of_not_wellFormed {line : Str} (hnl : '\n' ∉ line)
    (hw : (Split line [' ']).length ≠ 5) : convertLeases line = [] := by
  rw [convertLeases_eq, split_of_not_mem hnl]
  simp [leasesOfLines, wellFormed, space_toList, hw]

/-- The split of five space-free pieces joined by single spaces. -/
theorem split_five (f1 f2 f3 f4 f5 : Str) (h1 : ' ' ∉ f1) (h2 : ' ' ∉ f2) (h3 : ' ' ∉ f3)
    (h4 : ' ' ∉ f4) (h5 : ' ' ∉ f5) :
    Split (f1 ++ ' ' :: (f2 ++ ' ' :: (f3 ++ ' ' :: (f4 ++ ' ' :: f5)))) [' ']
      = [f1, f2, f3, f4, f5] := by
  rw [split_append, split_append, split_append, split_append, split_of_not_mem h1,
    split_of_not_mem h2, split_of_not_mem h3, split_of_not_mem h4, split_of_not_mem h5]
  rfl

/-- C16 (amended): for every line, `convertLeases` produces a record for the
line if and only if the line splits on the single space character into
exactly five fields, where a field may be empty (two adjacent spaces delimit
an empty field) and white space other than the space does not delimit.  The
fields of an accepted record contain no space; a line made of five space-free
fields joined by single spaces is accepted with exactly these fields. -/
theorem convertLeases_single_space_fields (line : Str) (hnl : '\n' ∉ line) :
    ((Split line " ".toList).length = 5 →
        ∃ f1 f2 f3 f4 f5 : Str, Split line " ".toList = [f1, f2, f3, f4, f5]
          ∧ convertLeases line = [⟨(ParseUint f1 10 64).1, f2, f3, f4, f5⟩]
          ∧ ' ' ∉ f1 ∧ ' ' ∉ f2 ∧ ' ' ∉ f3 ∧ ' ' ∉ f4 ∧ ' ' ∉ f5)
      ∧ ((Split line " ".toList).length ≠ 5 → convertLeases line = [])
      ∧ (∀ f1 f2 f3 f4 f5 : Str, ' ' ∉ f1 → ' ' ∉ f2 → ' ' ∉ f3 → ' ' ∉ f4 → ' ' ∉ f5 →
          line = f1 ++ " ".toList ++ f2 ++ " ".toList ++ f3 ++ " ".toList ++ f4 ++ " ".toList ++ f5 →
          convertLeases line = [⟨(ParseUint f1 10 64).1, f2, f3, f4, f5⟩]) := by
  refine ⟨?_, ?_, ?_⟩
  · intro hlen
    match hs : Split line " ".toList, hlen with
    | [f1, f2, f3, f4, f5], _ =>
      have hmem : ∀ f ∈ [f1, f2, f3, f4, f5], ' ' ∉ f := by
        intro f hf
        rw [← hs, space_toList] at hf
        exact not_mem_of_mem_split ' ' line f hf
      exact ⟨f1, f2, f3, f4, f5, rfl, convertLeases_single hnl hs,
        hmem f1 (by simp), hmem f2 (by simp), hmem f3 (by simp), hmem f4 (by simp),
        hmem f5 (by simp)⟩
  · intro hlen
    exact convertLeases_of_not_wellFormed hnl (by rwa [space_toList] at hlen)
  · intro f1 f2 f3 f4 f5 h1 h2 h3 h4 h5 hline
    have hs : Split line " ".toList = [f1, f2, f3, f4, f5] := by
      rw [hline, space_toList]
      simpa using split_five f1 f2 f3 f4 f5 h1 h2 h3 h4 h5
    exact convertLeases_single hnl hs

/-- C16, witness: a line with a doubled space. -/
theorem convertLeases_single_space_fields_witness :
    '\n' ∉ "1700000000 aa:bb  10.1.2.50 host".toList
      ∧ (Split "1700000000 aa:bb  10.1.2.50 host".toList " ".toList).length = 5
      ∧ ∃ f1 f2 f3 f4 f5 : Str,
        Split "1700000000 aa:bb  10.1.2.50 host".toList " ".toList = [f1, f2, f3, f4, f5]
          ∧ convertLeases "1700000000 aa:bb  10.1.2.50 host".toList
            = [⟨(ParseUint f1 10 64).1, f2, f3, f4, f5⟩]
          ∧ ' ' ∉ f1 ∧ ' ' ∉ f2 ∧ ' ' ∉ f3 ∧ ' ' ∉ f4 ∧ ' ' ∉ f5 :=
  ⟨by decide, by decide,
    (convertLeases_single_space_fields "1700000000 aa:bb  10.1.2.50 host".toList
      (by decide)).1 (by decide)⟩

/-- C16, counterexample: the first line has four white-space-delimited fields,
with a doubled space between two of them, and yields a record, whose IP
address is empty; the second line has five white-space-delimited fields,
separated by tabs, and yields no record. -/
theorem convertLeases_whitespace_fields_counterexample :
    (Fields "1700000000 aa:bb  10.1.2.50 host".toList).length = 4
      ∧ convertLeases "1700000000 aa:bb  10.1.2.50 host".toList
        = [⟨1700000000, "aa:bb".toList, [], "10.1.2.50".toList, "host".toList⟩]
      ∧ (Fields "1700000000\taa:bb\t10.1.2.50\thost\t*".toList).length = 5
      ∧ convertLeases "1700000000\taa:bb\t10.1.2.50\thost\t*".toList = [] := by
  decide

/-- C20: `convertLeases` distributes over line-wise concatenation: the records
of `a`, a newline and `b` are the records of `a` followed by the records of
`b`.  In particular the empty content has no record and a trailing newline
changes nothing. -/
theorem convertLeases_append (a b : Str) :
    convertLeases (a ++ "\n".toList ++ b) = convertLeases a ++ convertLeases b
      ∧ convertLeases [] = []
      ∧ convertLeases (a ++ "\n".toList) = convertLeases a := by
  have happ : ∀ x y : Str, convertLeases (x ++ "\n".toList ++ y)
      = convertLeases x ++ convertLeases y := by
    intro x y
    rw [convertLeases_eq, convertLeases_eq, convertLeases_eq, newline_toList,
      List.append_assoc, List.singleton_append, split_append, leasesOfLines_append]
  have hnil : convertLeases [] = [] := by decide
  refine ⟨happ a b, hnil, ?_⟩
  have := happ a []
  rwa [List.append_nil, hnil, List.append_nil] at this

/-! ## The trust-anchor transform: spaces and commas -/

theorem length_split (x : Char) : ∀ s : Str, (Split s [x]).length = s.count x + 1
  | [] => by simp [Split, splitFrom]
  | c :: cs => by
    have ih := length_split x cs
    simp only [split_single] at ih ⊢
    by_cases hc : c = x
    · subst hc
      rw [splitFrom_cons_sep]
      simp [ih]
    · rw [splitFrom_cons_other hc]
      have hne := splitFrom_ne_nil [x] cs 0
      cases hs : splitFrom [x] 0 cs with
      | nil => exact absurd hs hne
      | cons piece pieces =>
        rw [hs] at ih
        simp only [List.headD_cons, List.tail_cons, List.length_cons] at ih ⊢
        rw [List.count_cons_of_ne (Ne.symm hc)] 
        exact ih

theorem collectInternalArgs_isSome_iff {ε : Type} (fileReaderFn : FileReaderFn ε)
    (c : MainContext) :
    (collectInternalArgs fileReaderFn c).isSome = true
      ↔ 3 ≤ (Split c.Cfg.BridgeAddr ".".toList).length := by
  constructor
  · intro h
    by_contra hlt
    unfold collectInternalArgs at h
    simp only [if_neg hlt] at h
    exact absurd h (by simp)
  · intro h
    rw [collectInternalArgs_eq fileReaderFn c h]
    rfl

theorem not_mem_trustAnchorArg (line : Str) : ' ' ∉ trustAnchorArg line := by
  unfold trustAnchorArg
  rw [replace_space]
  exact not_mem_commas _

theorem not_mem_trustAnchorFlags {ε : Type} (fileReaderFn : FileReaderFn ε) :
    ∀ a ∈ trustAnchorFlags fileReaderFn, ' ' ∉ a := by
  intro a ha
  unfold trustAnchorFlags at ha
  generalize fileReaderFn "/usr/share/dns/root.ds".toList = r at ha
  rcases r with ⟨content, _ | e⟩
  · simp only [anchorArgs, List.mem_map] at ha
    obtain ⟨line, _, rfl⟩ := ha
    exact not_mem_trustAnchorArg line
  · exact absurd ha (List.not_mem_nil a)

theorem commas_replicate (n : Nat) : commas (List.replicate n ' ') = List.replicate n ',' := by
  simp [commas]

/-- C17 (amended): for every non-empty trust-anchor line, the trust-anchor
loop of `collectInternalArgs` emits one argument, which contains no space
character: it is the line after the keyword replacement with every single
space turned into one comma, so that a run of `n` consecutive spaces between
two fields becomes `n` commas.  Whenever `collectInternalArgs` returns, the
arguments between the three fixed flags and the DHCP-range flag are these
arguments, and none contains a space. -/
theorem collectLine_spaces_to_commas {ε : Type} (fileReaderFn : FileReaderFn ε)
    (c : MainContext) (args : List Str) (line : Str) (hne : line ≠ []) :
    (∃ a : Str, collectLine args line = args ++ [a]
      ∧ ' ' ∉ a
      ∧ a = commas (Replace line ". IN DS ".toList "--trust-anchor=.,".toList 1)
      ∧ ∀ (u v : Str) (n : Nat), line = ". IN DS ".toList ++ u ++ List.replicate n ' ' ++ v →
          a = "--trust-anchor=.,".toList ++ commas u ++ List.replicate n ',' ++ commas v)
      ∧ ∀ out, collectInternalArgs fileReaderFn c = some out →
          ∃ dhcp : Str, out = fixedFlags ++ trustAnchorFlags fileReaderFn ++ [dhcp]
            ∧ ∀ a ∈ trustAnchorFlags fileReaderFn, ' ' ∉ a := by
  have ha : trustAnchorArg line
      = commas (Replace line ". IN DS ".toList "--trust-anchor=.,".toList 1) := by
    unfold trustAnchorArg
    rw [replace_space]
  refine ⟨⟨trustAnchorArg line, ?_, not_mem_trustAnchorArg line, ha, ?_⟩, ?_⟩
  · rw [collectLine_eq]
    unfold anchorArgs
    rw [List.filter_cons_of_pos (by simpa using hne)]
    rfl
  · intro u v n hline
    have hrec := trustAnchorArg_record [] (u ++ List.replicate n ' ' ++ v) (by simp)
    rw [hline]
    simp only [List.nil_append, List.append_assoc] at hrec ⊢
    rw [hrec, commas_append, commas_append, commas_replicate]
  · intro out hout
    have hsome : (collectInternalArgs fileReaderFn c).isSome = true := by rw [hout]; rfl
    have hlen := (collectInternalArgs_isSome_iff fileReaderFn c).1 hsome
    rw [collectInternalArgs_eq fileReaderFn c hlen] at hout
    exact ⟨_, (Option.some.inj hout).symm, not_mem_trustAnchorFlags fileReaderFn⟩

/-- C17, witness: a root record with a doubled space. -/
theorem collectLine_spaces_to_commas_witness :
    ". IN DS 20326  8 2 E06D".toList ≠ []
      ∧ ∃ a : Str, collectLine fixedFlags ". IN DS 20326  8 2 E06D".toList = fixedFlags ++ [a]
        ∧ ' ' ∉ a
        ∧ a = commas (Replace ". IN DS 20326  8 2 E06D".toList ". IN DS ".toList
            "--trust-anchor=.,".toList 1)
        ∧ ∀ (u v : Str) (n : Nat),
            ". IN DS 20326  8 2 E06D".toList
              = ". IN DS ".toList ++ u ++ List.replicate n ' ' ++ v →
            a = "--trust-anchor=.,".toList ++ commas u ++ List.replicate n ',' ++ commas v :=
  ⟨by decide,
    (collectLine_spaces_to_commas (ε := Nat)
      (fun _ => (". IN DS 20326  8 2 E06D".toList, none)) ⟨⟨"10.1.2.1".toList, []⟩⟩
      fixedFlags ". IN DS 20326  8 2 E06D".toList (by decide)).1⟩

/-- C17, counterexample: the trust-anchor file holds a root record with two
spaces between the key tag and the algorithm; the argument emitted has two
commas there, not one. -/
theorem collectInternalArgs_doubled_space_counterexample :
    collectInternalArgs (ε := Nat) (fun _ => (". IN DS 20326  8 2 E06D".toList, none))
        ⟨⟨"10.1.2.1".toList, []⟩⟩
      = some ["--keep-in-foreground".toList,
          "--conf-dir=/etc/dnsmasq.d,.dpkg-dist,.dpkg-old,.dpkg-new".toList,
          "--local-service".toList,
          "--trust-anchor=.,20326,,8,2,E06D".toList,
          "--dhcp-range=10.1.2.50,10.1.2.250,12h".toList]
      ∧ "--trust-anchor=.,20326,,8,2,E06D".toList ≠ "--trust-anchor=.,20326,8,2,E06D".toList := by
  decide

/-! ## The configuration across a start -/

/-- C18, the code at a failing input: no process is held and the only extra
argument is `--dhcp-leasefile=/tmp/x.leases`, so `ReadLeases` reads
`/tmp/x.leases` (the reader returns the path it is given as its error).  After
a successful `Start` the configured extra arguments are a single empty string
and `ReadLeases` reads the default path. -/
theorem start_blanks_configured_arguments :
    ReadLeases (NewDnsmasqProcess (ε := Str) (fun path => ([], some path))
        ⟨⟨"10.1.2.1".toList, ["--dhcp-leasefile=/tmp/x.leases".toList]⟩⟩)
      = some (none, some "/tmp/x.leases".toList)
      ∧ (Start (ε := Str) (fun cmd => (cmd, none))
          (NewDnsmasqProcess (fun path => ([], some path))
            ⟨⟨"10.1.2.1".toList, ["--dhcp-leasefile=/tmp/x.leases".toList]⟩⟩)).map
          (fun r => (r.err, r.after.ctx.Cfg.DnsmasqArgs))
        = some (none, [[]])
      ∧ (Start (ε := Str) (fun cmd => (cmd, none))
          (NewDnsmasqProcess (fun path => ([], some path))
            ⟨⟨"10.1.2.1".toList, ["--dhcp-leasefile=/tmp/x.leases".toList]⟩⟩)).bind
          (fun r => ReadLeases r.after)
        = some (none, some "/var/lib/misc/dnsmasq.leases".toList) := by
  refine ⟨?_, ?_, ?_⟩
  · decide
  · decide
  · decide

/-! ## The bounds of the bridge address -/

/-- C19: `collectInternalArgs` completes, without an out-of-range failure of
the slice expression, if and only if the split of the bridge address on `.`
has at least three components, that is, if and only if the bridge address
contains at least two `.` characters; with fewer it fails, whatever the file
reader returns for the trust-anchor file. -/
theorem collectInternalArgs_completes_iff {ε : Type} (fileReaderFn : FileReaderFn ε)
    (c : MainContext) :
    ((collectInternalArgs fileReaderFn c).isSome = true
        ↔ 3 ≤ (Split c.Cfg.BridgeAddr ".".toList).length)
      ∧ (Split c.Cfg.BridgeAddr ".".toList).length = c.Cfg.BridgeAddr.count '.' + 1
      ∧ ((collectInternalArgs fileReaderFn c).isSome = true ↔ 2 ≤ c.Cfg.BridgeAddr.count '.')
      ∧ ((Split c.Cfg.BridgeAddr ".".toList).length < 3 →
          collectInternalArgs fileReaderFn c = none) := by
  have hlen : (Split c.Cfg.BridgeAddr ".".toList).length = c.Cfg.BridgeAddr.count '.' + 1 :=
    length_split '.' c.Cfg.BridgeAddr
  have hiff := collectInternalArgs_isSome_iff fileReaderFn c
  refine ⟨hiff, hlen, ?_, ?_⟩
  · rw [hiff, hlen]
    omega
  · intro hlt
    have hnot : ¬ ((collectInternalArgs fileReaderFn c).isSome = true) := by
      rw [hiff]
      omega
    cases h : collectInternalArgs fileReaderFn c with
    | none => rfl
    | some args => rw [h] at hnot; exact absurd rfl hnot

end Dnsmasq
